import Mathlib

/-!
Verification of the pharmacy recommendation core
(`raspberry_app/api/cache_manager.py`, `raspberry_app/api/claude_client.py`,
`raspberry_app/api/prompt_builder.py`) against its specification.

Embedding conventions:
* Python dicts / `OrderedDict`s are association lists `List (String × V)`
  kept in insertion order (head = oldest / least recently used); dict keys
  are unique in every reachable state, matching Python.
* Wall-clock instants (`time.time()`) and the retry backoff are modelled as
  `Int`.  The Python code uses floats, but every quantity any claim touches
  (timestamps, ttl comparisons, the 1.0/2.0 backoff doubling) is produced by
  exact integer-valued float arithmetic, so the integer model preserves
  behaviour on all modelled runs.
* A Python statement that raises an uncaught exception is modelled by an
  `Option`-returning operation producing `none`.
* External collaborators (the `anthropic` SDK, the `re` regex engine inside
  the dose-pattern layer, and the SQLite product catalog) are modelled as
  explicit parameters of the functions that consult them.
-/

/-- Dictionary key membership (`key in d`) for an association list. -/
def hasKey {V : Type} (l : List (String × V)) (k : String) : Bool :=
  (List.lookup k l).isSome

/-- Dictionary deletion (`del d[key]`, the body of `_remove_key`): drops the
binding of `k`, keeping everything else in order. -/
def removeKey {V : Type} (l : List (String × V)) (k : String) : List (String × V) :=
  l.filter (fun p => !(p.1 == k))

/-- The `OrderedDict.move_to_end(key)` operation: reposition the binding of
`k` (when present) at the most-recently-used end. -/
def moveToEnd {V : Type} (l : List (String × V)) (k : String) : List (String × V) :=
  match List.lookup k l with
  | some v => removeKey l k ++ [(k, v)]
  | none => l

/-- State of `CacheManager` (`cache_manager.py`): the ordered map, the
timestamp map and the four statistics counters. -/
structure CacheManager (V : Type) where
  max_size : Nat
  ttl : Int
  cache : List (String × V)
  timestamps : List (String × Int)
  hits : Nat
  misses : Nat
  evictions : Nat
  expirations : Nat
deriving DecidableEq

/-- `CacheManager.__init__`: empty maps, zeroed counters. -/
def CacheManager.init (V : Type) (max_size : Nat) (ttl : Int) : CacheManager V :=
  ⟨max_size, ttl, [], [], 0, 0, 0, 0⟩

/-- `CacheManager.get` at instant `now`: miss on absent key; lazily expire
and miss when the entry's age exceeds `ttl`; otherwise reposition the key as
most recently used, count a hit and return the stored value. -/
def CacheManager.get {V : Type} (st : CacheManager V) (key : String) (now : Int) :
    Option V × CacheManager V :=
  if hasKey st.cache key then
    let ts := (List.lookup key st.timestamps).getD 0
    if now - ts > st.ttl then
      (none, { st with cache := removeKey st.cache key,
                       timestamps := removeKey st.timestamps key,
                       expirations := st.expirations + 1,
                       misses := st.misses + 1 })
    else
      (List.lookup key st.cache,
       { st with cache := moveToEnd st.cache key, hits := st.hits + 1 })
  else
    (none, { st with misses := st.misses + 1 })

/-- `CacheManager.set` at instant `now`.  A pre-existing binding of the key
is deleted first (`del` on both dicts; a desynchronised timestamp dict would
raise `KeyError`, modelled by `none`).  If the map is still at or above
capacity the first (least recently used) binding is evicted — on an empty
map `next(iter(...))` raises `StopIteration`, modelled by `none`.  The new
binding is appended at the most-recently-used end with a fresh timestamp. -/
def CacheManager.set {V : Type} (st : CacheManager V) (key : String) (value : V)
    (now : Int) : Option (CacheManager V) :=
  let step1 : Option (CacheManager V) :=
    if hasKey st.cache key then
      if hasKey st.timestamps key then
        some { st with cache := removeKey st.cache key,
                       timestamps := removeKey st.timestamps key }
      else none
    else some st
  match step1 with
  | none => none
  | some st1 =>
    if st1.cache.length ≥ st1.max_size then
      match st1.cache with
      | [] => none
      | (k0, _) :: _ =>
        some { st1 with cache := removeKey st1.cache k0 ++ [(key, value)],
                        timestamps := removeKey st1.timestamps k0 ++ [(key, now)],
                        evictions := st1.evictions + 1 }
    else
      some { st1 with cache := st1.cache ++ [(key, value)],
                      timestamps := st1.timestamps ++ [(key, now)] }

/-- `CacheManager.delete`: remove the key from both maps when present,
reporting whether anything was removed. -/
def CacheManager.delete {V : Type} (st : CacheManager V) (key : String) :
    Bool × CacheManager V :=
  if hasKey st.cache key then
    (true, { st with cache := removeKey st.cache key,
                     timestamps := removeKey st.timestamps key })
  else
    (false, st)

/-- `CacheManager.clear`: drop all entries, keep the counters. -/
def CacheManager.clear {V : Type} (st : CacheManager V) : CacheManager V :=
  { st with cache := [], timestamps := [] }

/-- `CacheManager.cleanup_expired` at instant `now`: eagerly remove every
entry whose age exceeds `ttl`, counting each removal as an expiration, and
report how many were removed. -/
def CacheManager.cleanup_expired {V : Type} (st : CacheManager V) (now : Int) :
    Nat × CacheManager V :=
  let expiredKeys := (st.timestamps.filter (fun p => now - p.2 > st.ttl)).map Prod.fst
  (expiredKeys.length,
   { st with cache := expiredKeys.foldl (fun l k => removeKey l k) st.cache,
             timestamps := expiredKeys.foldl (fun l k => removeKey l k) st.timestamps,
             expirations := st.expirations + expiredKeys.length })

/-- `CacheManager.reset_stats`: zero the four counters, keep the entries. -/
def CacheManager.reset_stats {V : Type} (st : CacheManager V) : CacheManager V :=
  { st with hits := 0, misses := 0, evictions := 0, expirations := 0 }

/-- States reachable from a freshly constructed cache by any interleaving of
the public operations. -/
inductive CacheReachable {V : Type} : CacheManager V → Prop where
  | init (max_size : Nat) (ttl : Int) : CacheReachable (CacheManager.init V max_size ttl)
  | get {st : CacheManager V} (key : String) (now : Int) :
      CacheReachable st → CacheReachable (st.get key now).2
  | set {st st' : CacheManager V} (key : String) (value : V) (now : Int) :
      CacheReachable st → st.set key value now = some st' → CacheReachable st'
  | delete {st : CacheManager V} (key : String) :
      CacheReachable st → CacheReachable (st.delete key).2
  | clear {st : CacheManager V} : CacheReachable st → CacheReachable st.clear
  | cleanup {st : CacheManager V} (now : Int) :
      CacheReachable st → CacheReachable (st.cleanup_expired now).2
  | reset {st : CacheManager V} : CacheReachable st → CacheReachable st.reset_stats

def assocKeys {V : Type} (l : List (String × V)) : List String :=
  l.map Prod.fst

/-- Well-formedness of a cache state: bounded size, duplicate-free keys in
both dicts, and the two dicts bound to the same key set. -/
def CacheWF {V : Type} (st : CacheManager V) : Prop :=
  st.cache.length ≤ st.max_size ∧
  (assocKeys st.cache).Nodup ∧
  (assocKeys st.timestamps).Nodup ∧
  ∀ k, hasKey st.cache k = hasKey st.timestamps k

lemma lookup_removeKey_self {V : Type} (l : List (String × V)) (k : String) :
    List.lookup k (removeKey l k) = none := by
  induction l with
  | nil => rfl
  | cons p t ih =>
    by_cases h : p.1 = k
    · simpa [removeKey, h] using ih
    · have hb : (p.1 == k) = false := beq_eq_false_iff_ne.mpr h
      have hb2 : (k == p.1) = false := beq_eq_false_iff_ne.mpr (Ne.symm h)
      cases p with
      | mk a b =>
        simp only [removeKey] at *
        simp [List.filter, hb, List.lookup, hb2, ih]

lemma lookup_removeKey_ne {V : Type} (l : List (String × V)) (k k2 : String)
    (h : k2 ≠ k) : List.lookup k2 (removeKey l k) = List.lookup k2 l := by
  induction l with
  | nil => rfl
  | cons p t ih =>
    cases p with
    | mk a b =>
      have hk2k : (k2 == k) = false := beq_eq_false_iff_ne.mpr h
      by_cases ha : a = k
      · subst ha
        simpa [removeKey, List.filter, List.lookup, hk2k] using ih
      · have hb : (a == k) = false := beq_eq_false_iff_ne.mpr ha
        by_cases hk2 : k2 = a
        · subst hk2
          simp [removeKey, List.filter, hb, List.lookup]
        · have hb2 : (k2 == a) = false := beq_eq_false_iff_ne.mpr hk2
          simp only [removeKey, List.filter, hb, Bool.not_false]
          simp only [removeKey] at ih
          simp [List.lookup, hb2, ih]

lemma hasKey_removeKey_self {V : Type} (l : List (String × V)) (k : String) :
    hasKey (removeKey l k) k = false := by
  simp [hasKey, lookup_removeKey_self]

lemma hasKey_removeKey_ne {V : Type} (l : List (String × V)) (k k2 : String)
    (h : k2 ≠ k) : hasKey (removeKey l k) k2 = hasKey l k2 := by
  simp [hasKey, lookup_removeKey_ne l k k2 h]

lemma length_removeKey_le {V : Type} (l : List (String × V)) (k : String) :
    (removeKey l k).length ≤ l.length :=
  List.length_filter_le _ l

lemma length_removeKey_lt {V : Type} (l : List (String × V)) (k : String)
    (h : hasKey l k = true) : (removeKey l k).length < l.length := by
  induction l with
  | nil => simp [hasKey] at h
  | cons p t ih =>
    cases p with
    | mk a b =>
      by_cases ha : a = k
      · have hb : (a == k) = true := beq_iff_eq.mpr ha
        simp only [removeKey, List.filter, hb]
        exact Nat.lt_succ_of_le (List.length_filter_le _ t)
      · have hb : (a == k) = false := beq_eq_false_iff_ne.mpr ha
        have hb2 : (k == a) = false := beq_eq_false_iff_ne.mpr (Ne.symm ha)
        simp only [hasKey, List.lookup, hb2] at h
        have := ih h
        simp only [removeKey, List.filter, hb, Bool.not_false] at *
        simpa using Nat.succ_lt_succ this

lemma nodup_removeKey {V : Type} (l : List (String × V)) (k : String)
    (h : (assocKeys l).Nodup) : (assocKeys (removeKey l k)).Nodup := by
  have hsub : (assocKeys (removeKey l k)).Sublist (assocKeys l) :=
    List.Sublist.map Prod.fst (List.filter_sublist l)
  exact List.Nodup.sublist hsub h

lemma mem_keys_of_lookup {V : Type} {l : List (String × V)} {k : String} {v : V}
    (h : List.lookup k l = some v) : k ∈ assocKeys l := by
  induction l with
  | nil => simp [List.lookup] at h
  | cons p t ih =>
    cases p with
    | mk a b =>
      by_cases hk : k = a
      · simp [assocKeys, hk]
      · have hb : (k == a) = false := beq_eq_false_iff_ne.mpr hk
        simp only [List.lookup, hb] at h
        exact List.mem_cons_of_mem _ (ih h)

lemma hasKey_true_iff_mem {V : Type} (l : List (String × V)) (k : String) :
    hasKey l k = true ↔ k ∈ assocKeys l := by
  constructor
  · intro h
    rcases hk : List.lookup k l with _ | v
    · simp [hasKey, hk] at h
    · exact mem_keys_of_lookup hk
  · intro h
    induction l with
    | nil => simp [assocKeys] at h
    | cons p t ih =>
      cases p with
      | mk a b =>
        by_cases hk : k = a
        · simp [hasKey, List.lookup, beq_iff_eq.mpr hk]
        · have hb : (k == a) = false := beq_eq_false_iff_ne.mpr hk
          simp only [assocKeys, List.map, List.mem_cons] at h
          rcases h with h | h
          · exact absurd h hk
          · simpa [hasKey, List.lookup, hb] using ih h

lemma removeKey_of_not_mem {V : Type} (l : List (String × V)) (k : String)
    (h : k ∉ assocKeys l) : removeKey l k = l := by
  refine List.filter_eq_self.mpr (fun p hp => ?_)
  have : p.1 ≠ k := fun he => h (he ▸ List.mem_map_of_mem Prod.fst hp)
  simp [beq_eq_false_iff_ne.mpr this]

lemma length_removeKey_nodup {V : Type} (l : List (String × V)) (k : String)
    (hn : (assocKeys l).Nodup) (h : hasKey l k = true) :
    (removeKey l k).length + 1 = l.length := by
  induction l with
  | nil => simp [hasKey, List.lookup] at h
  | cons p t ih =>
    cases p with
    | mk a b =>
      simp only [assocKeys, List.map_cons, List.nodup_cons] at hn
      by_cases ha : a = k
      · subst ha
        have hrt : removeKey t a = t :=
          removeKey_of_not_mem t a (by simpa [assocKeys] using hn.1)
        have hhead : removeKey ((a, b) :: t) a = removeKey t a := by
          simp [removeKey, List.filter]
        rw [hhead, hrt]
        simp
      · have hb : (a == k) = false := beq_eq_false_iff_ne.mpr ha
        have hb2 : (k == a) = false := beq_eq_false_iff_ne.mpr (Ne.symm ha)
        simp only [hasKey, List.lookup, hb2] at h
        have := ih hn.2 h
        have hhead : removeKey ((a, b) :: t) k = (a, b) :: removeKey t k := by
          simp [removeKey, List.filter, hb]
        rw [hhead]
        simp only [List.length_cons]
        omega

lemma lookup_append_right {V : Type} (l : List (String × V)) (k : String) (v : V)
    (h : List.lookup k l = none) : List.lookup k (l ++ [(k, v)]) = some v := by
  induction l with
  | nil => simp [List.lookup]
  | cons p t ih =>
    cases p with
    | mk a b =>
      by_cases hk : k = a
      · simp [List.lookup, beq_iff_eq.mpr hk] at h
      · have hb : (k == a) = false := beq_eq_false_iff_ne.mpr hk
        simp only [List.lookup, hb] at h
        simpa [List.lookup, hb] using ih h

lemma lookup_append_left {V : Type} (l l2 : List (String × V)) (k : String) (v : V)
    (h : List.lookup k l = some v) : List.lookup k (l ++ l2) = some v := by
  induction l with
  | nil => simp [List.lookup] at h
  | cons p t ih =>
    cases p with
    | mk a b =>
      by_cases hk : k = a
      · simp only [List.lookup, beq_iff_eq.mpr hk] at h
        simp [List.lookup, beq_iff_eq.mpr hk, h]
      · have hb : (k == a) = false := beq_eq_false_iff_ne.mpr hk
        simp only [List.lookup, hb] at h
        simpa [List.lookup, hb] using ih h

lemma lookup_append_of_none {V : Type} (l l2 : List (String × V)) (k : String)
    (h : List.lookup k l = none) : List.lookup k (l ++ l2) = List.lookup k l2 := by
  induction l with
  | nil => rfl
  | cons p t ih =>
    cases p with
    | mk a b =>
      by_cases hk : k = a
      · simp [List.lookup, beq_iff_eq.mpr hk] at h
      · have hb : (k == a) = false := beq_eq_false_iff_ne.mpr hk
        simp only [List.lookup, hb] at h
        simpa [List.lookup, hb] using ih h

lemma hasKey_append_single {V : Type} (l : List (String × V)) (k : String) (v : V)
    (k2 : String) : hasKey (l ++ [(k, v)]) k2 = (hasKey l k2 || (k2 == k)) := by
  rcases hl : List.lookup k2 l with _ | w
  · rw [hasKey, lookup_append_of_none l [(k, v)] k2 hl]
    by_cases hk : k2 = k
    · simp [List.lookup, beq_iff_eq.mpr hk, hasKey, hl]
    · simp [List.lookup, beq_eq_false_iff_ne.mpr hk, hasKey, hl]
  · rw [hasKey, lookup_append_left l [(k, v)] k2 w hl]
    simp [hasKey, hl]

lemma nodup_keys_append_single {V : Type} (l : List (String × V)) (k : String) (v : V)
    (hn : (assocKeys l).Nodup) (hk : hasKey l k = false) :
    (assocKeys (l ++ [(k, v)])).Nodup := by
  have hmem : k ∉ assocKeys l := fun hm => by
    rw [(hasKey_true_iff_mem l k).mpr hm] at hk
    exact Bool.true_eq_false.mp hk
  simp only [assocKeys, List.map_append, List.map_cons, List.map_nil]
  rw [List.nodup_append]
  exact ⟨hn, List.nodup_singleton k, by
    intro x hx hx2
    simp only [List.mem_singleton] at hx2
    exact hmem (hx2 ▸ hx)⟩

lemma hasKey_moveToEnd {V : Type} (l : List (String × V)) (k k2 : String) :
    hasKey (moveToEnd l k) k2 = hasKey l k2 := by
  rcases hl : List.lookup k l with _ | v
  · simp [moveToEnd, hl]
  · simp only [moveToEnd, hl]
    rw [hasKey_append_single]
    by_cases hk : k2 = k
    · subst hk
      simp [hasKey, hl, hasKey_removeKey_self]
    · simp [beq_eq_false_iff_ne.mpr hk, hasKey_removeKey_ne l k k2 hk]

lemma nodup_moveToEnd {V : Type} (l : List (String × V)) (k : String)
    (hn : (assocKeys l).Nodup) : (assocKeys (moveToEnd l k)).Nodup := by
  rcases hl : List.lookup k l with _ | v
  · simpa [moveToEnd, hl] using hn
  · simp only [moveToEnd, hl]
    exact nodup_keys_append_single _ k v (nodup_removeKey l k hn) (hasKey_removeKey_self l k)

lemma length_moveToEnd_nodup {V : Type} (l : List (String × V)) (k : String)
    (hn : (assocKeys l).Nodup) : (moveToEnd l k).length = l.length := by
  rcases hl : List.lookup k l with _ | v
  · simp [moveToEnd, hl]
  · have hk : hasKey l k = true := by simp [hasKey, hl]
    have := length_removeKey_nodup l k hn hk
    simp only [moveToEnd, hl, List.length_append, List.length_cons, List.length_nil]
    omega

lemma length_foldl_removeKey_le {V : Type} (ks : List String) (l : List (String × V)) :
    (ks.foldl (fun l k => removeKey l k) l).length ≤ l.length := by
  induction ks generalizing l with
  | nil => simp
  | cons k t ih =>
    simp only [List.foldl_cons]
    exact le_trans (ih (removeKey l k)) (length_removeKey_le l k)

lemma nodup_foldl_removeKey {V : Type} (ks : List String) (l : List (String × V))
    (hn : (assocKeys l).Nodup) :
    (assocKeys (ks.foldl (fun l k => removeKey l k) l)).Nodup := by
  induction ks generalizing l with
  | nil => simpa
  | cons k t ih =>
    simp only [List.foldl_cons]
    exact ih (removeKey l k) (nodup_removeKey l k hn)

lemma hasKey_removeKey_sync {V W : Type} (c : List (String × V)) (t : List (String × W))
    (k : String) (hs : ∀ k2, hasKey c k2 = hasKey t k2) (k2 : String) :
    hasKey (removeKey c k) k2 = hasKey (removeKey t k) k2 := by
  by_cases hk : k2 = k
  · subst hk
    rw [hasKey_removeKey_self, hasKey_removeKey_self]
  · rw [hasKey_removeKey_ne c k k2 hk, hasKey_removeKey_ne t k k2 hk]
    exact hs k2

lemma hasKey_foldl_removeKey_sync {V W : Type} (ks : List String)
    (c : List (String × V)) (t : List (String × W))
    (hs : ∀ k2, hasKey c k2 = hasKey t k2) (k2 : String) :
    hasKey (ks.foldl (fun l k => removeKey l k) c) k2 =
    hasKey (ks.foldl (fun l k => removeKey l k) t) k2 := by
  induction ks generalizing c t with
  | nil => exact hs k2
  | cons k tl ih =>
    simp only [List.foldl_cons]
    exact ih (removeKey c k) (removeKey t k) (hasKey_removeKey_sync c t k hs)

/-- Every reachable cache state is well formed: size within capacity, unique
keys, and synchronised key sets between the entry and timestamp dicts. -/
lemma cache_reachable_wf {V : Type} {st : CacheManager V} (h : CacheReachable st) :
    CacheWF st := by
  induction h with
  | init max_size ttl =>
    refine ⟨by simp [CacheManager.init], by simp [CacheManager.init, assocKeys],
      by simp [CacheManager.init, assocKeys], fun k => rfl⟩
  | get key now hr ih =>
    obtain ⟨hlen, hnc, hnt, hs⟩ := ih
    rename_i st0
    by_cases hk : hasKey st0.cache key = true
    · by_cases hexp : now - (List.lookup key st0.timestamps).getD 0 > st0.ttl
      · have : (st0.get key now).2 =
            { st0 with cache := removeKey st0.cache key,
                       timestamps := removeKey st0.timestamps key,
                       expirations := st0.expirations + 1,
                       misses := st0.misses + 1 } := by
          simp [CacheManager.get, hk, hexp]
        rw [this]
        exact ⟨le_trans (length_removeKey_le _ _) hlen,
          nodup_removeKey _ _ hnc, nodup_removeKey _ _ hnt,
          hasKey_removeKey_sync _ _ key hs⟩
      · have : (st0.get key now).2 =
            { st0 with cache := moveToEnd st0.cache key, hits := st0.hits + 1 } := by
          simp [CacheManager.get, hk, hexp]
        rw [this]
        refine ⟨?_, nodup_moveToEnd _ _ hnc, hnt, fun k2 => ?_⟩
        · rw [length_moveToEnd_nodup _ _ hnc]; exact hlen
        · rw [hasKey_moveToEnd]; exact hs k2
    · have : (st0.get key now).2 = { st0 with misses := st0.misses + 1 } := by
        simp [CacheManager.get, hk]
      rw [this]
      exact ⟨hlen, hnc, hnt, hs⟩
  | set key value now hr hset ih =>
    obtain ⟨hlen, hnc, hnt, hs⟩ := ih
    rename_i st0 st1
    -- the state after the initial deletion of a pre-existing binding
    have hstep : ∃ stm : CacheManager V,
        (if hasKey st0.cache key then
          if hasKey st0.timestamps key then
            some { st0 with cache := removeKey st0.cache key,
                            timestamps := removeKey st0.timestamps key }
          else none
        else some st0) = some stm ∧
        stm.cache.length ≤ st0.max_size ∧ (assocKeys stm.cache).Nodup ∧
        (assocKeys stm.timestamps).Nodup ∧
        (∀ k2, hasKey stm.cache k2 = hasKey stm.timestamps k2) ∧
        hasKey stm.cache key = false ∧ stm.max_size = st0.max_size := by
      rcases hk : hasKey st0.cache key with _ | _
      · refine ⟨st0, by simp, hlen, hnc, hnt, hs, hk, rfl⟩
      · have ht : hasKey st0.timestamps key = true := (hs key) ▸ hk
        refine ⟨{ st0 with cache := removeKey st0.cache key,
                           timestamps := removeKey st0.timestamps key },
          by simp [ht], ?_, ?_, ?_, ?_, ?_, rfl⟩
        · exact le_trans (length_removeKey_le _ _) hlen
        · exact nodup_removeKey _ _ hnc
        · exact nodup_removeKey _ _ hnt
        · exact hasKey_removeKey_sync _ _ key hs
        · exact hasKey_removeKey_self _ _
    obtain ⟨stm, hstm, hmlen, hmnc, hmnt, hms, hmk, hmmax⟩ := hstep
    rw [CacheManager.set] at hset
    rw [hstm] at hset
    simp only at hset
    by_cases hcap : stm.cache.length ≥ stm.max_size
    · rw [if_pos hcap] at hset
      rcases hmc : stm.cache with _ | ⟨⟨k0, v0⟩, rest⟩
      · rw [hmc] at hset; exact absurd hset (by simp)
      · rw [hmc] at hset
        simp only [Option.some.injEq] at hset
        subst hset
        have hmlenL : ((k0, v0) :: rest).length ≤ st0.max_size := hmc ▸ hmlen
        have hmncL : (assocKeys ((k0, v0) :: rest)).Nodup := hmc ▸ hmnc
        have hmsL : ∀ k2, hasKey ((k0, v0) :: rest) k2 = hasKey stm.timestamps k2 :=
          fun k2 => hmc ▸ hms k2
        have hmkL : hasKey ((k0, v0) :: rest) key = false := hmc ▸ hmk
        have hk0 : hasKey ((k0, v0) :: rest) k0 = true := by
          simp [hasKey, List.lookup]
        have hlen0 : (removeKey ((k0, v0) :: rest) k0).length + 1 =
            ((k0, v0) :: rest).length :=
          length_removeKey_nodup _ _ hmncL hk0
        have hkey0 : hasKey (removeKey ((k0, v0) :: rest) k0) key = false := by
          by_cases hek : key = k0
          · subst hek; exact hasKey_removeKey_self _ _
          · rw [hasKey_removeKey_ne _ _ _ hek]; exact hmkL
        have hkeyt : hasKey (removeKey stm.timestamps k0) key = false := by
          rw [← hasKey_removeKey_sync _ _ k0 hmsL key]
          exact hkey0
        refine ⟨?_, ?_, ?_, ?_⟩
        · simp only [List.length_append, List.length_cons, List.length_nil]
          simp only [List.length_cons] at hmlenL hlen0
          omega
        · exact nodup_keys_append_single _ _ _ (nodup_removeKey _ _ hmncL) hkey0
        · exact nodup_keys_append_single _ _ _ (nodup_removeKey _ _ hmnt) hkeyt
        · intro k2
          rw [hasKey_append_single, hasKey_append_single,
            hasKey_removeKey_sync _ _ k0 hmsL k2]
    · rw [if_neg hcap] at hset
      simp only [Option.some.injEq] at hset
      subst hset
      refine ⟨?_, nodup_keys_append_single _ _ _ hmnc hmk,
        nodup_keys_append_single _ _ _ hmnt ((hms key) ▸ hmk), fun k2 => ?_⟩
      · simp only [List.length_append, List.length_cons, List.length_nil]
        rw [hmmax] at hcap
        omega
      · rw [hasKey_append_single, hasKey_append_single, hms k2]
  | delete key hr ih =>
    obtain ⟨hlen, hnc, hnt, hs⟩ := ih
    rename_i st0
    by_cases hk : hasKey st0.cache key = true
    · have : (st0.delete key).2 =
          { st0 with cache := removeKey st0.cache key,
                     timestamps := removeKey st0.timestamps key } := by
        simp [CacheManager.delete, hk]
      rw [this]
      exact ⟨le_trans (length_removeKey_le _ _) hlen, nodup_removeKey _ _ hnc,
        nodup_removeKey _ _ hnt, hasKey_removeKey_sync _ _ key hs⟩
    · have : (st0.delete key).2 = st0 := by simp [CacheManager.delete, hk]
      rw [this]
      exact ⟨hlen, hnc, hnt, hs⟩
  | clear hr ih =>
    exact ⟨by simp [CacheManager.clear], by simp [CacheManager.clear, assocKeys],
      by simp [CacheManager.clear, assocKeys], fun k => rfl⟩
  | cleanup now hr ih =>
    obtain ⟨hlen, hnc, hnt, hs⟩ := ih
    rename_i st0
    refine ⟨le_trans (length_foldl_removeKey_le _ _) hlen,
      nodup_foldl_removeKey _ _ hnc, nodup_foldl_removeKey _ _ hnt, fun k2 => ?_⟩
    exact hasKey_foldl_removeKey_sync _ _ _ hs k2
  | reset hr ih =>
    obtain ⟨hlen, hnc, hnt, hs⟩ := ih
    exact ⟨hlen, hnc, hnt, hs⟩

lemma max_size_get {V : Type} (st : CacheManager V) (key : String) (now : Int) :
    ((st.get key now).2).max_size = st.max_size := by
  rcases hk : hasKey st.cache key with _ | _
  · simp [CacheManager.get, hk]
  · by_cases hexp : now - (List.lookup key st.timestamps).getD 0 > st.ttl
    · simp [CacheManager.get, hk, hexp]
    · simp [CacheManager.get, hk, hexp]

lemma max_size_set {V : Type} {st st' : CacheManager V} {key : String} {value : V}
    {now : Int} (h : st.set key value now = some st') : st'.max_size = st.max_size := by
  unfold CacheManager.set at h
  rcases hk : hasKey st.cache key with _ | _ <;> rw [hk] at h
  · simp only [Bool.false_eq_true, if_false] at h
    split_ifs at h
    · rcases hc : st.cache with _ | ⟨⟨k0, v0⟩, rest⟩ <;> rw [hc] at h
      · simp at h
      · simp only [Option.some.injEq] at h
        exact h ▸ rfl
    · simp only [Option.some.injEq] at h
      exact h ▸ rfl
  · rcases ht : hasKey st.timestamps key with _ | _ <;> rw [ht] at h
    · simp at h
    · simp only [if_true] at h
      split_ifs at h
      · rcases hc : removeKey st.cache key with _ | ⟨⟨k0, v0⟩, rest⟩ <;>
          simp only [hc] at h
        · simp at h
        · simp only [Option.some.injEq] at h
          exact h ▸ rfl
      · simp only [Option.some.injEq] at h
        exact h ▸ rfl

lemma max_size_delete {V : Type} (st : CacheManager V) (key : String) :
    ((st.delete key).2).max_size = st.max_size := by
  unfold CacheManager.delete
  split_ifs <;> rfl

lemma foldl_removeKey_nil {V : Type} (ks : List String) :
    ks.foldl (fun l k => removeKey l k) ([] : List (String × V)) = [] := by
  induction ks with
  | nil => rfl
  | cons k t ih => simpa [removeKey] using ih

/-- A cache constructed with `max_size = 0` can never hold an entry: no `set`
ever succeeds, so its entry dict stays empty forever. -/
lemma reachable_max0_empty {V : Type} {st : CacheManager V} (h : CacheReachable st) :
    st.max_size = 0 → st.cache = [] := by
  induction h with
  | init max_size ttl => intro _; rfl
  | get key now hr ih =>
    rename_i st0
    intro hm
    rw [max_size_get] at hm
    have hc := ih hm
    simp [CacheManager.get, hasKey, List.lookup, hc]
  | set key value now hr hset ih =>
    rename_i st0 st1
    intro hm
    rw [max_size_set hset] at hm
    have hc := ih hm
    rw [CacheManager.set] at hset
    have hk : hasKey st0.cache key = false := by simp [hasKey, hc, List.lookup]
    rw [hk] at hset
    simp only [Bool.false_eq_true, if_false] at hset
    rw [hc, hm] at hset
    simp at hset
  | delete key hr ih =>
    rename_i st0
    intro hm
    rw [max_size_delete] at hm
    have hc := ih hm
    simp [CacheManager.delete, hasKey, List.lookup, hc]
  | clear hr ih => intro _; rfl
  | cleanup now hr ih =>
    rename_i st0
    intro hm
    have hc := ih hm
    simp [CacheManager.cleanup_expired, hc, foldl_removeKey_nil]
  | reset hr ih =>
    rename_i st0
    intro hm
    exact ih hm

/-- Claim C6.  `get` semantics: an absent key misses and only bumps the miss
counter; a present key whose age strictly exceeds `ttl` is removed from both
dicts with the expiration and miss counters each bumped once and the result
absent; a present fresh key is returned as stored, repositioned, with only
the hit counter bumped. -/
theorem claim_C6 {V : Type} (st : CacheManager V) (key : String) (now : Int) :
    (hasKey st.cache key = false →
      st.get key now = (none, { st with misses := st.misses + 1 })) ∧
    (∀ ts, hasKey st.cache key = true → List.lookup key st.timestamps = some ts →
      now - ts > st.ttl →
      st.get key now =
        (none, { st with cache := removeKey st.cache key,
                         timestamps := removeKey st.timestamps key,
                         expirations := st.expirations + 1,
                         misses := st.misses + 1 })) ∧
    (∀ ts v, List.lookup key st.cache = some v →
      List.lookup key st.timestamps = some ts → ¬(now - ts > st.ttl) →
      st.get key now =
        (some v, { st with cache := moveToEnd st.cache key, hits := st.hits + 1 })) := by
  refine ⟨fun hk => ?_, fun ts hk hts hexp => ?_, fun ts v hv hts hfresh => ?_⟩
  · simp [CacheManager.get, hk]
  · simp [CacheManager.get, hk, hts, hexp]
  · have hk : hasKey st.cache key = true := by simp [hasKey, hv]
    simp [CacheManager.get, hk, hts, hfresh, hv]

/-- Witness for claim C6: a one-entry cache with `ttl = 1` written at
instant 0; a fresh read at instant 1 hits, a read at instant 2 expires, and
a read of an unknown key misses. -/
theorem claim_C6_witness :
    (CacheManager.get ⟨10, 1, [("k", 7)], [("k", 0)], 0, 0, 0, 0⟩ "k" 2 : Option Nat × _) =
      (none, ⟨10, 1, [], [], 0, 1, 0, 1⟩) ∧
    (CacheManager.get ⟨10, 1, [("k", 7)], [("k", 0)], 0, 0, 0, 0⟩ "k" 1 : Option Nat × _) =
      (some 7, ⟨10, 1, [("k", 7)], [("k", 0)], 1, 0, 0, 0⟩) ∧
    (CacheManager.get ⟨10, 1, [("k", 7)], [("k", 0)], 0, 0, 0, 0⟩ "x" 1 : Option Nat × _) =
      (none, ⟨10, 1, [("k", 7)], [("k", 0)], 0, 1, 0, 0⟩) := by
  refine ⟨?_, ?_, ?_⟩
  · have h := (claim_C6 (⟨10, 1, [("k", 7)], [("k", 0)], 0, 0, 0, 0⟩ : CacheManager Nat)
      "k" 2).2.1 0 (by decide) (by decide) (by decide)
    rw [h]
    decide
  · have h := (claim_C6 (⟨10, 1, [("k", 7)], [("k", 0)], 0, 0, 0, 0⟩ : CacheManager Nat)
      "k" 1).2.2 0 7 (by decide) (by decide) (by decide)
    rw [h]
    decide
  · have h := (claim_C6 (⟨10, 1, [("k", 7)], [("k", 0)], 0, 0, 0, 0⟩ : CacheManager Nat)
      "x" 1).1 (by decide)
    rw [h]

/-- Claim C7.  Capacity invariant and idempotent re-set: every reachable
cache state holds at most `max_size` entries, and re-`set`ting a key that is
already present (even at capacity) succeeds, replaces the value, refreshes
the timestamp, evicts nothing (same size, same key set, eviction counter
unchanged) and touches no other counter. -/
theorem claim_C7 {V : Type} (st : CacheManager V) (key : String) (value : V)
    (now : Int) (hr : CacheReachable st) :
    st.cache.length ≤ st.max_size ∧
    (hasKey st.cache key = true →
      ∃ st', st.set key value now = some st' ∧
        st'.evictions = st.evictions ∧
        st'.cache.length = st.cache.length ∧
        List.lookup key st'.cache = some value ∧
        List.lookup key st'.timestamps = some now ∧
        (∀ k2, hasKey st'.cache k2 = hasKey st.cache k2) ∧
        st'.hits = st.hits ∧ st'.misses = st.misses ∧
        st'.expirations = st.expirations) := by
  obtain ⟨hlen, hnc, hnt, hs⟩ := cache_reachable_wf hr
  refine ⟨hlen, fun hk => ?_⟩
  have ht : hasKey st.timestamps key = true := (hs key) ▸ hk
  have h1 : (removeKey st.cache key).length + 1 = st.cache.length :=
    length_removeKey_nodup _ _ hnc hk
  have hpos : 1 ≤ st.cache.length := by
    rcases hc : st.cache with _ | ⟨p, t⟩
    · rw [hc] at hk; simp [hasKey, List.lookup] at hk
    · simp
  have hcap : ¬((removeKey st.cache key).length ≥ st.max_size) := by omega
  refine ⟨{ st with cache := removeKey st.cache key ++ [(key, value)],
                    timestamps := removeKey st.timestamps key ++ [(key, now)] },
    ?_, rfl, ?_, ?_, ?_, ?_, rfl, rfl, rfl⟩
  · simp [CacheManager.set, hk, ht, hcap]
  · simp only [List.length_append, List.length_cons, List.length_nil]
    omega
  · rw [lookup_append_of_none _ _ _ (lookup_removeKey_self _ _)]
    simp [List.lookup]
  · rw [lookup_append_of_none _ _ _ (lookup_removeKey_self _ _)]
    simp [List.lookup]
  · intro k2
    rw [hasKey_append_single]
    by_cases hk2 : k2 = key
    · subst hk2; simp [hk]
    · rw [hasKey_removeKey_ne _ _ _ hk2]
      simp [beq_eq_false_iff_ne.mpr hk2]

/-- Witness for claim C7: a reachable two-slot cache holding one entry;
re-setting its key succeeds without eviction and refreshes value and
timestamp. -/
theorem claim_C7_witness :
    (⟨2, 100, [("a", 1)], [("a", 0)], 0, 0, 0, 0⟩ : CacheManager Nat).cache.length ≤
      (⟨2, 100, [("a", 1)], [("a", 0)], 0, 0, 0, 0⟩ : CacheManager Nat).max_size ∧
    ∃ st', CacheManager.set
        (⟨2, 100, [("a", 1)], [("a", 0)], 0, 0, 0, 0⟩ : CacheManager Nat) "a" 5 7 =
        some st' ∧
      st'.evictions = 0 ∧ st'.cache.length = 1 ∧
      List.lookup "a" st'.cache = some 5 ∧
      List.lookup "a" st'.timestamps = some 7 := by
  have hre : CacheReachable
      (⟨2, 100, [("a", 1)], [("a", 0)], 0, 0, 0, 0⟩ : CacheManager Nat) :=
    CacheReachable.set "a" 1 0 (CacheReachable.init 2 100) (by decide)
  obtain ⟨hl, h2⟩ :=
    claim_C7 (⟨2, 100, [("a", 1)], [("a", 0)], 0, 0, 0, 0⟩ : CacheManager Nat)
      "a" 5 7 hre
  obtain ⟨st', hset, hev, hln, hv, htt, _, _, _, _⟩ := h2 (by decide)
  exact ⟨hl, st', hset, hev, hln, hv, htt⟩

/-- Claim C10.  With `max_size = 0` the cache can never store anything:
every reachable zero-capacity state is empty and every call to `set` on it
raises (`next(iter(...))` on the empty dict raises `StopIteration`, modelled
by `none`), so the documented capacity behaviour needs `max_size ≥ 1`. -/
theorem claim_C10 {V : Type} (st : CacheManager V) (hr : CacheReachable st)
    (h0 : st.max_size = 0) :
    st.cache = [] ∧
    ∀ (key : String) (value : V) (now : Int), st.set key value now = none := by
  have hc := reachable_max0_empty hr h0
  refine ⟨hc, fun key value now => ?_⟩
  simp [CacheManager.set, hasKey, List.lookup, hc, h0]

/-- Witness for claim C10: a freshly constructed `max_size = 0` cache is
empty and its first `set` raises. -/
theorem claim_C10_witness :
    (CacheManager.init Nat 0 3600).cache = [] ∧
    CacheManager.set (CacheManager.init Nat 0 3600) "k" 5 0 = none := by
  have h := claim_C10 (CacheManager.init Nat 0 3600) (CacheReachable.init 0 3600) rfl
  exact ⟨h.1, h.2 "k" 5 0⟩

/-- Claim C5.  LRU repositioning and eviction: on an empty three-slot cache
(ttl not elapsed), `set k1; set k2; set k3; get k1; set k4` leaves exactly
`k1, k3, k4` present (in LRU order `k3, k1, k4`), `k2` evicted, and the
eviction counter at 1 — the `get` repositioned `k1` as most recently used,
and the insert at capacity evicted the single least recently used entry. -/
theorem claim_C5 {V : Type} (k1 k2 k3 k4 : String) (v1 v2 v3 v4 : V)
    (h12 : k1 ≠ k2) (h13 : k1 ≠ k3) (h14 : k1 ≠ k4)
    (h23 : k2 ≠ k3) (h24 : k2 ≠ k4) (h34 : k3 ≠ k4) :
    ∃ s1 s2 s3 s4 s5 : CacheManager V,
      CacheManager.set (CacheManager.init V 3 100) k1 v1 0 = some s1 ∧
      s1.set k2 v2 1 = some s2 ∧
      s2.set k3 v3 2 = some s3 ∧
      s3.get k1 3 = (some v1, s4) ∧
      s4.set k4 v4 4 = some s5 ∧
      s5.cache = [(k3, v3), (k1, v1), (k4, v4)] ∧
      hasKey s5.cache k1 = true ∧ hasKey s5.cache k3 = true ∧
      hasKey s5.cache k4 = true ∧ hasKey s5.cache k2 = false ∧
      s5.evictions = 1 ∧ s5.cache.length = 3 := by
  have e12 : (k1 == k2) = false := beq_eq_false_iff_ne.mpr h12
  have e21 : (k2 == k1) = false := beq_eq_false_iff_ne.mpr (Ne.symm h12)
  have e13 : (k1 == k3) = false := beq_eq_false_iff_ne.mpr h13
  have e31 : (k3 == k1) = false := beq_eq_false_iff_ne.mpr (Ne.symm h13)
  have e14 : (k1 == k4) = false := beq_eq_false_iff_ne.mpr h14
  have e41 : (k4 == k1) = false := beq_eq_false_iff_ne.mpr (Ne.symm h14)
  have e23 : (k2 == k3) = false := beq_eq_false_iff_ne.mpr h23
  have e32 : (k3 == k2) = false := beq_eq_false_iff_ne.mpr (Ne.symm h23)
  have e24 : (k2 == k4) = false := beq_eq_false_iff_ne.mpr h24
  have e42 : (k4 == k2) = false := beq_eq_false_iff_ne.mpr (Ne.symm h24)
  have e34 : (k3 == k4) = false := beq_eq_false_iff_ne.mpr h34
  have e43 : (k4 == k3) = false := beq_eq_false_iff_ne.mpr (Ne.symm h34)
  refine ⟨⟨3, 100, [(k1, v1)], [(k1, 0)], 0, 0, 0, 0⟩,
          ⟨3, 100, [(k1, v1), (k2, v2)], [(k1, 0), (k2, 1)], 0, 0, 0, 0⟩,
          ⟨3, 100, [(k1, v1), (k2, v2), (k3, v3)], [(k1, 0), (k2, 1), (k3, 2)],
            0, 0, 0, 0⟩,
          ⟨3, 100, [(k2, v2), (k3, v3), (k1, v1)], [(k1, 0), (k2, 1), (k3, 2)],
            1, 0, 0, 0⟩,
          ⟨3, 100, [(k3, v3), (k1, v1), (k4, v4)], [(k1, 0), (k3, 2), (k4, 4)],
            1, 0, 1, 0⟩, ?_, ?_, ?_, ?_, ?_, rfl, ?_, ?_, ?_, ?_, rfl, rfl⟩
  · simp [CacheManager.set, CacheManager.init, hasKey, List.lookup]
  · simp [CacheManager.set, hasKey, List.lookup, e21]
  · simp [CacheManager.set, hasKey, List.lookup, e31, e32]
  · have hfresh : ¬((3 : Int) - 0 > 100) := by decide
    simp [CacheManager.get, hasKey, List.lookup, moveToEnd, removeKey, List.filter,
      e21, e31, e12, e13, hfresh]
  · simp [CacheManager.set, hasKey, List.lookup, removeKey, List.filter,
      e41, e42, e43, e12, e32]
  · simp [hasKey, List.lookup, e13]
  · simp [hasKey, List.lookup]
  · simp [hasKey, List.lookup, e43, e41]
  · simp [hasKey, List.lookup, e23, e21, e24]

/-- Witness for claim C5 at four concrete distinct keys. -/
theorem claim_C5_witness :
    ∃ s1 s2 s3 s4 s5 : CacheManager Nat,
      CacheManager.set (CacheManager.init Nat 3 100) "k1" 11 0 = some s1 ∧
      s1.set "k2" 12 1 = some s2 ∧
      s2.set "k3" 13 2 = some s3 ∧
      s3.get "k1" 3 = (some 11, s4) ∧
      s4.set "k4" 14 4 = some s5 ∧
      s5.cache = [("k3", 13), ("k1", 11), ("k4", 14)] ∧
      hasKey s5.cache "k1" = true ∧ hasKey s5.cache "k3" = true ∧
      hasKey s5.cache "k4" = true ∧ hasKey s5.cache "k2" = false ∧
      s5.evictions = 1 ∧ s5.cache.length = 3 :=
  claim_C5 "k1" "k2" "k3" "k4" 11 12 13 14 (by decide) (by decide) (by decide)
    (by decide) (by decide) (by decide)

/-- Outcome of one attempted `messages.create` call, as classified by the
`except` clauses of `ClaudeClient._call_api`: a successful response with its
text, the two transient failures (`APITimeoutError`, `APIConnectionError`),
a rejection by the service (`APIError`), or any other exception. -/
inductive ApiOutcome where
  | success (text : String)
  | timeout
  | connectionError
  | apiError
  | unexpectedError
deriving DecidableEq

/-- The `api_calls` / `api_errors` counters of `ClaudeClient`. -/
structure ApiStats where
  api_calls : Nat
  api_errors : Nat
deriving DecidableEq

/-- Loop body of `ClaudeClient._call_api` over `for attempt in
range(max_retries)`.  The behaviour of the external SDK is supplied as
`outcome`, giving the result of the attempt with each index.  On success the
call counter is bumped and the text returned; a transient failure sleeps for
the current backoff and doubles it, except on the final attempt; a rejection
or unexpected error bumps the error counter and returns no text at once;
falling off the loop (all retries exhausted) bumps the error counter once.
The accumulated `sleeps` list records each `time.sleep(backoff)` performed,
in order. -/
def call_api_loop (outcome : Nat → ApiOutcome) (maxRetries : Nat) :
    List Nat → Int → ApiStats → List Int → ApiStats × List Int × Option String
  | [], _, stats, sleeps =>
    ({ stats with api_errors := stats.api_errors + 1 }, sleeps, none)
  | attempt :: rest, backoff, stats, sleeps =>
    match outcome attempt with
    | .success text =>
      ({ stats with api_calls := stats.api_calls + 1 }, sleeps, some text)
    | .timeout =>
      if attempt < maxRetries - 1 then
        call_api_loop outcome maxRetries rest (backoff * 2) stats (sleeps ++ [backoff])
      else
        call_api_loop outcome maxRetries rest backoff stats sleeps
    | .connectionError =>
      if attempt < maxRetries - 1 then
        call_api_loop outcome maxRetries rest (backoff * 2) stats (sleeps ++ [backoff])
      else
        call_api_loop outcome maxRetries rest backoff stats sleeps
    | .apiError =>
      ({ stats with api_errors := stats.api_errors + 1 }, sleeps, none)
    | .unexpectedError =>
      ({ stats with api_errors := stats.api_errors + 1 }, sleeps, none)

/-- `ClaudeClient._call_api` with its default `max_retries` and
`initial_backoff` passed explicitly. -/
def call_api (outcome : Nat → ApiOutcome) (stats : ApiStats) (maxRetries : Nat)
    (initialBackoff : Int) : ApiStats × List Int × Option String :=
  call_api_loop outcome maxRetries (List.range maxRetries) initialBackoff stats []

/-- Claim C4.  With the default 3 attempts and initial backoff 1: two
transient failures followed by a success sleep 1 then 2 time units, bump only
the call counter and return the text; a rejection on the first attempt
returns failure at once — no retry, no sleep, one error-counter bump,
whatever the later attempts would have produced; exhausting all retries on
transient failures sleeps 1 then 2 and bumps the error counter once. -/
theorem claim_C4 (f : Nat → ApiOutcome) (stats : ApiStats) (text : String) :
    ((f 0 = .timeout ∨ f 0 = .connectionError) →
      (f 1 = .timeout ∨ f 1 = .connectionError) →
      f 2 = .success text →
      call_api f stats 3 1 =
        ({ stats with api_calls := stats.api_calls + 1 }, [1, 2], some text)) ∧
    (f 0 = .apiError →
      call_api f stats 3 1 =
        ({ stats with api_errors := stats.api_errors + 1 }, [], none)) ∧
    ((∀ i, i < 3 → f i = .timeout ∨ f i = .connectionError) →
      call_api f stats 3 1 =
        ({ stats with api_errors := stats.api_errors + 1 }, [1, 2], none)) := by
  refine ⟨fun h0 h1 h2 => ?_, fun h0 => ?_, fun h => ?_⟩
  · rcases h0 with h0 | h0 <;> rcases h1 with h1 | h1 <;>
      simp [call_api, call_api_loop, List.range, List.range.loop, h0, h1, h2]
  · simp [call_api, call_api_loop, List.range, List.range.loop, h0]
  · obtain h0 := h 0 (by omega)
    obtain h1 := h 1 (by omega)
    obtain h2 := h 2 (by omega)
    rcases h0 with h0 | h0 <;> rcases h1 with h1 | h1 <;> rcases h2 with h2 | h2 <;>
      simp [call_api, call_api_loop, List.range, List.range.loop, h0, h1, h2]

/-- Witness for claim C4: timeout-timeout-success, an immediate rejection,
and three straight timeouts, each at concrete outcome schedules. -/
theorem claim_C4_witness :
    call_api (fun i => if i = 0 then .timeout else if i = 1 then .timeout
        else .success "ok") ⟨10, 5⟩ 3 1 = (⟨11, 5⟩, [1, 2], some "ok") ∧
    call_api (fun _ => .apiError) ⟨10, 5⟩ 3 1 = (⟨10, 6⟩, [], none) ∧
    call_api (fun _ => .connectionError) ⟨10, 5⟩ 3 1 = (⟨10, 6⟩, [1, 2], none) := by
  refine ⟨?_, ?_, ?_⟩
  · exact (claim_C4 (fun i => if i = 0 then .timeout else if i = 1 then .timeout
      else .success "ok") ⟨10, 5⟩ "ok").1 (by decide) (by decide) (by decide)
  · exact (claim_C4 (fun _ => .apiError) ⟨10, 5⟩ "ok").2.1 (by decide)
  · exact (claim_C4 (fun _ => .connectionError) ⟨10, 5⟩ "ok").2.2
      (fun i _ => Or.inr rfl)

/-- Substring containment on character lists (Python's `needle in hay`). -/
def listContainsSub (needle : List Char) : List Char → Bool
  | [] => needle.isPrefixOf []
  | c :: rest => needle.isPrefixOf (c :: rest) || listContainsSub needle rest

/-- Python's `needle in hay` on strings. -/
def pyContains (needle hay : String) : Bool :=
  listContainsSub needle.toList hay.toList

/-- Python's `str.lower` on one character, for the character ranges occurring
in this repository's data (ASCII and the Latin-1 letters); no claim depends
on case mapping outside these ranges. -/
def pyLowerChar (c : Char) : Char :=
  if 0x41 ≤ c.toNat ∧ c.toNat ≤ 0x5A then Char.ofNat (c.toNat + 32)
  else if (0xC0 ≤ c.toNat ∧ c.toNat ≤ 0xDE) ∧ c.toNat ≠ 0xD7 then
    Char.ofNat (c.toNat + 32)
  else c

/-- Python's `str.lower`. -/
def pyLower (s : String) : String :=
  String.mk (s.toList.map pyLowerChar)

/-- `ClaudeClient.PRESCRIPTION_ACTIVE_INGREDIENTS`: the fixed blocklist of
active-ingredient tokens that always require a prescription in Spain
(antibiotics, high-potency NSAIDs, opioids, antiemetics, new-generation
antihistamines, respiratory agents, others). -/
def PRESCRIPTION_ACTIVE_INGREDIENTS : List String :=
  ["amoxicilina", "azitromicina", "ciprofloxacino", "levofloxacino",
   "ácido fusídico", "sulfadiazina", "fusídico", "argéntica",
   "metamizol", "nolotil", "dexketoprofeno", "enantyum",
   "diclofenaco", "voltadol",
   "codeína", "tramadol", "fentanilo", "codeina",
   "metoclopramida", "primperan", "domperidona",
   "desloratadina", "aerius", "bilastina", "bilaxten",
   "bromhexina", "cloperastina", "dextrometorfano",
   "flurbiprofeno", "nafazolina"]

/-- One recommendation dict from the generation service; a missing
`product_name` key (`rec.get('product_name', '')`) is the empty string. -/
structure RecommendationItem where
  product_name : String
  category : String
  reason : String
  priority : String
  estimated_price : String
deriving DecidableEq

/-- Layer 1 of the safety filter: does the lowercased product name contain
any blocklisted ingredient token? -/
def blockedByIngredient (product_lower : String) : Bool :=
  PRESCRIPTION_ACTIVE_INGREDIENTS.any (fun ing => pyContains ing product_lower)

/-- The per-candidate decision of `ClaudeClient._filter_prescription_products`
(lines 304-425): reject a nameless candidate outright; reject on the
ingredient blocklist (layer 1); otherwise reject when any dose pattern
matches (layer 2, `re.search` over `PRESCRIPTION_NAME_PATTERNS`, supplied as
the predicate `doseMatch` on the lowercased name); otherwise consult the
catalog (layer 3, the SQL lookup of lines 378-387, supplied as `lookup`
returning the fetched row's name and `requires_prescription` flag): accept
exactly a row flagged OTC, reject a prescription row, and reject when no row
matches (fail-closed). -/
def filter_step (doseMatch : String → Bool)
    (lookup : String → Option (String × Bool)) (rec : RecommendationItem) : Bool :=
  if rec.product_name = "" then false
  else
    let product_lower := pyLower rec.product_name
    if blockedByIngredient product_lower then false
    else if doseMatch product_lower then false
    else
      match lookup rec.product_name with
      | some (_, requires_rx) => !requires_rx
      | none => false

/-- The loop of `ClaudeClient._filter_prescription_products`: walk the
candidates in order, keeping exactly those the three-layer gate accepts. -/
def filter_prescription_products (doseMatch : String → Bool)
    (lookup : String → Option (String × Bool)) :
    List RecommendationItem → List RecommendationItem
  | [] => []
  | rec :: rest =>
    if rec.product_name = "" then filter_prescription_products doseMatch lookup rest
    else
      let product_lower := pyLower rec.product_name
      if blockedByIngredient product_lower then
        filter_prescription_products doseMatch lookup rest
      else if doseMatch product_lower then
        filter_prescription_products doseMatch lookup rest
      else
        match lookup rec.product_name with
        | some (_, true) => filter_prescription_products doseMatch lookup rest
        | some (_, false) => rec :: filter_prescription_products doseMatch lookup rest
        | none => filter_prescription_products doseMatch lookup rest

/-- Claim C1.  The three layers fire in order with short-circuit: a
blocklisted name is rejected whatever the dose patterns or the catalog would
say (even an OTC catalog row); a surviving candidate matching a dose pattern
is rejected; a surviving candidate is accepted iff its catalog row is
flagged OTC; no catalog row at all means rejection (fail-closed, for any
candidate); and the whole filter is exactly the per-candidate gate applied
to every element of any input list. -/
theorem claim_C1 (doseMatch : String → Bool)
    (lookup : String → Option (String × Bool)) (rec : RecommendationItem)
    (recs : List RecommendationItem) (hname : rec.product_name ≠ "") :
    (blockedByIngredient (pyLower rec.product_name) = true →
      ∀ (doseMatch2 : String → Bool) (lookup2 : String → Option (String × Bool)),
        filter_step doseMatch2 lookup2 rec = false) ∧
    (blockedByIngredient (pyLower rec.product_name) = false →
      doseMatch (pyLower rec.product_name) = true →
      filter_step doseMatch lookup rec = false) ∧
    (blockedByIngredient (pyLower rec.product_name) = false →
      doseMatch (pyLower rec.product_name) = false →
      (filter_step doseMatch lookup rec = true ↔
        ∃ nm, lookup rec.product_name = some (nm, false))) ∧
    (lookup rec.product_name = none → filter_step doseMatch lookup rec = false) ∧
    (filter_prescription_products doseMatch lookup recs =
      recs.filter (filter_step doseMatch lookup)) := by
  refine ⟨fun hb d2 l2 => ?_, fun hb hd => ?_, fun hb hd => ?_, fun hl => ?_, ?_⟩
  · simp [filter_step, hname, hb]
  · simp [filter_step, hname, hb, hd]
  · simp only [filter_step, hname, if_neg, hb, hd, Bool.false_eq_true, if_false]
    rcases hl : lookup rec.product_name with _ | ⟨nm, rx⟩
    · simp
    · rcases rx with _ | _ <;> simp
  · by_cases hb : blockedByIngredient (pyLower rec.product_name) = true
    · simp [filter_step, hname, hb]
    · by_cases hd : doseMatch (pyLower rec.product_name) = true
      · simp [filter_step, hname, hb, hd]
      · simp [filter_step, hname, hb, hd, hl]
  · induction recs with
    | nil => rfl
    | cons r t ih =>
      by_cases hn : r.product_name = ""
      · simp [filter_prescription_products, filter_step, hn, List.filter, ih]
      · by_cases hb : blockedByIngredient (pyLower r.product_name) = true
        · simp [filter_prescription_products, filter_step, hn, hb, List.filter, ih]
        · by_cases hd : doseMatch (pyLower r.product_name) = true
          · simp [filter_prescription_products, filter_step, hn, hb, hd,
              List.filter, ih]
          · rcases hl : lookup r.product_name with _ | ⟨nm, rx⟩
            · simp [filter_prescription_products, filter_step, hn, hb, hd, hl,
                List.filter, ih]
            · rcases rx with _ | _ <;>
                simp [filter_prescription_products, filter_step, hn, hb, hd, hl,
                  List.filter, ih]

/-- Witness for claim C1: a named candidate that passes all three layers
against a catalog whose lookup reports an OTC row is accepted, alone in the
returned list. -/
theorem claim_C1_witness :
    filter_step (fun _ => false) (fun _ => some ("Almax", false))
      ⟨"Gaviscon", "Digestivos", "protector", "high", "3.50"⟩ = true ∧
    filter_prescription_products (fun _ => false) (fun _ => some ("Almax", false))
      [⟨"Gaviscon", "Digestivos", "protector", "high", "3.50"⟩] =
      [⟨"Gaviscon", "Digestivos", "protector", "high", "3.50"⟩] := by
  have h := claim_C1 (fun _ => false) (fun _ => some ("Almax", false))
    ⟨"Gaviscon", "Digestivos", "protector", "high", "3.50"⟩
    [⟨"Gaviscon", "Digestivos", "protector", "high", "3.50"⟩] (by decide)
  have hstep := (h.2.2.1 (by decide) rfl).mpr ⟨"Almax", rfl⟩
  refine ⟨hstep, ?_⟩
  rw [h.2.2.2.2]
  simp [hstep]

/-- 32-bit truncation for MD5 word arithmetic. -/
def w32 (n : Nat) : Nat := n % 4294967296

/-- 32-bit modular addition. -/
def wadd (a b : Nat) : Nat := (a + b) % 4294967296

/-- 32-bit complement of a word already below `2^32`. -/
def wnot (a : Nat) : Nat := 4294967295 - a % 4294967296

/-- 32-bit left rotation of a word already below `2^32`. -/
def wrotl (x n : Nat) : Nat := ((x <<< n) % 4294967296) ||| (x >>> (32 - n))

/-- Per-round shift amounts of MD5 (RFC 1321). -/
def md5S : List Nat :=
  [7, 12, 17, 22, 7, 12, 17, 22, 7, 12, 17, 22, 7, 12, 17, 22,
   5, 9, 14, 20, 5, 9, 14, 20, 5, 9, 14, 20, 5, 9, 14, 20,
   4, 11, 16, 23, 4, 11, 16, 23, 4, 11, 16, 23, 4, 11, 16, 23,
   6, 10, 15, 21, 6, 10, 15, 21, 6, 10, 15, 21, 6, 10, 15, 21]

/-- Per-round additive constants of MD5 (RFC 1321). -/
def md5K : List Nat :=
  [0xd76aa478, 0xe8c7b756, 0x242070db, 0xc1bdceee,
   0xf57c0faf, 0x4787c62a, 0xa8304613, 0xfd469501,
   0x698098d8, 0x8b44f7af, 0xffff5bb1, 0x895cd7be,
   0x6b901122, 0xfd987193, 0xa679438e, 0x49b40821,
   0xf61e2562, 0xc040b340, 0x265e5a51, 0xe9b6c7aa,
   0xd62f105d, 0x02441453, 0xd8a1e681, 0xe7d3fbc8,
   0x21e1cde6, 0xc33707d6, 0xf4d50d87, 0x455a14ed,
   0xa9e3e905, 0xfcefa3f8, 0x676f02d9, 0x8d2a4c8a,
   0xfffa3942, 0x8771f681, 0x6d9d6122, 0xfde5380c,
   0xa4beea44, 0x4bdecfa9, 0xf6bb4b60, 0xbebfbc70,
   0x289b7ec6, 0xeaa127fa, 0xd4ef3085, 0x04881d05,
   0xd9d4d039, 0xe6db99e5, 0x1fa27cf8, 0xc4ac5665,
   0xf4292244, 0x432aff97, 0xab9423a7, 0xfc93a039,
   0x655b59c3, 0x8f0ccc92, 0xffeff47d, 0x85845dd1,
   0x6fa87e4f, 0xfe2ce6e0, 0xa3014314, 0x4e0811a1,
   0xf7537e82, 0xbd3af235, 0x2ad7d2bb, 0xeb86d391]

/-- UTF-8 encoding of one code point. -/
def utf8Char (c : Char) : List Nat :=
  let n := c.toNat
  if n < 0x80 then [n]
  else if n < 0x800 then [0xC0 + n / 64, 0x80 + n % 64]
  else if n < 0x10000 then [0xE0 + n / 4096, 0x80 + n / 64 % 64, 0x80 + n % 64]
  else [0xF0 + n / 262144, 0x80 + n / 4096 % 64, 0x80 + n / 64 % 64, 0x80 + n % 64]

/-- UTF-8 encoding of a string (`str.encode('utf-8')`), as a byte list. -/
def utf8Bytes (s : String) : List Nat :=
  s.toList.flatMap utf8Char

/-- Eight little-endian bytes of the 64-bit message bit length. -/
def le8 (n : Nat) : List Nat :=
  [n % 256, n / 2 ^ 8 % 256, n / 2 ^ 16 % 256, n / 2 ^ 24 % 256,
   n / 2 ^ 32 % 256, n / 2 ^ 40 % 256, n / 2 ^ 48 % 256, n / 2 ^ 56 % 256]

/-- MD5 padding: a 1-bit (byte `0x80`), zeros to 56 mod 64, then the bit
length, little-endian. -/
def md5Pad (msg : List Nat) : List Nat :=
  let z := (120 - (msg.length + 1) % 64) % 64
  msg ++ [0x80] ++ List.replicate z 0 ++ le8 ((msg.length * 8) % 2 ^ 64)

/-- Split a byte list into 64-byte blocks (`fuel` bounds the recursion and is
instantiated with the list length, which always suffices). -/
def toBlocks : Nat → List Nat → List (List Nat)
  | 0, _ => []
  | _, [] => []
  | fuel + 1, l => l.take 64 :: toBlocks fuel (l.drop 64)

/-- The sixteen little-endian message words of one 64-byte block. -/
def blockWord (b : List Nat) (i : Nat) : Nat :=
  b.getD (4 * i) 0 + 256 * b.getD (4 * i + 1) 0 + 65536 * b.getD (4 * i + 2) 0 +
    16777216 * b.getD (4 * i + 3) 0

/-- One of the 64 MD5 rounds. -/
def md5RoundStep (M : Nat → Nat) (st : Nat × Nat × Nat × Nat) (i : Nat) :
    Nat × Nat × Nat × Nat :=
  let (a, b, c, d) := st
  let fg : Nat × Nat :=
    if i < 16 then ((b &&& c) ||| (wnot b &&& d), i)
    else if i < 32 then ((d &&& b) ||| (wnot d &&& c), (5 * i + 1) % 16)
    else if i < 48 then (b ^^^ c ^^^ d, (3 * i + 5) % 16)
    else (c ^^^ (b ||| wnot d), (7 * i) % 16)
  let temp := wadd (wadd (wadd a fg.1) (md5K.getD i 0)) (w32 (M fg.2))
  (d, wadd b (wrotl temp (md5S.getD i 0)), b, c)

/-- Process one 64-byte block, updating the four chaining words. -/
def md5ProcessBlock (st : Nat × Nat × Nat × Nat) (block : List Nat) :
    Nat × Nat × Nat × Nat :=
  let r := (List.range 64).foldl (md5RoundStep (blockWord block)) st
  (wadd st.1 r.1, wadd st.2.1 r.2.1, wadd st.2.2.1 r.2.2.1, wadd st.2.2.2 r.2.2.2)

/-- The four MD5 state words of a byte message. -/
def md5Words (msg : List Nat) : Nat × Nat × Nat × Nat :=
  (toBlocks (md5Pad msg).length (md5Pad msg)).foldl md5ProcessBlock
    (0x67452301, 0xefcdab89, 0x98badcfe, 0x10325476)

/-- The sixteen lowercase hexadecimal digits; index `n < 16` selects digit
`n` (the fallback branch is never reached by the callers below, which always
pass a value reduced mod 16). -/
def hexDigitChar (n : Nat) : Char :=
  "0123456789abcdef".toList.getD n '0'

/-- Two lowercase hex digits of one byte. -/
def byteToHex (b : Nat) : List Char :=
  [hexDigitChar (b / 16 % 16), hexDigitChar (b % 16)]

/-- Four little-endian bytes of a 32-bit word. -/
def wordLEBytes (w : Nat) : List Nat :=
  [w % 256, w / 256 % 256, w / 65536 % 256, w / 16777216 % 256]

/-- `hashlib.md5(msg).hexdigest()`: the 32-character lowercase hex digest. -/
def md5Hex (msg : List Nat) : String :=
  let r := md5Words msg
  String.mk ((wordLEBytes r.1 ++ wordLEBytes r.2.1 ++ wordLEBytes r.2.2.1 ++
    wordLEBytes r.2.2.2).flatMap byteToHex)

/-- Code-point lexicographic order on character lists, Python's `str`
comparison used by `sorted`. -/
def lexLe : List Char → List Char → Bool
  | [], _ => true
  | _ :: _, [] => false
  | a :: as, b :: bs =>
    if a.toNat < b.toNat then true
    else if b.toNat < a.toNat then false
    else lexLe as bs

/-- Python's `str` order. -/
def strLe (a b : String) : Bool := lexLe a.toList b.toList

/-- Python's `sorted` on strings.  (Python uses a stable mergesort; on
strings, where equal elements are indistinguishable, every sort agrees with
insertion sort, which is used here because it also reduces inside the
kernel.) -/
def pySorted (l : List String) : List String :=
  List.insertionSort (fun a b => strLe a b = true) l

lemma lexLe_trans : ∀ x y z : List Char, lexLe x y = true → lexLe y z = true →
    lexLe x z = true
  | [], _, _, _, _ => rfl
  | _ :: _, [], _, h, _ => by simp [lexLe] at h
  | _ :: _, _ :: _, [], _, h => by simp [lexLe] at h
  | a :: as, b :: bs, c :: cs, h1, h2 => by
    simp only [lexLe] at h1 h2 ⊢
    by_cases hab : a.toNat < b.toNat
    · by_cases hbc : b.toNat < c.toNat
      · rw [if_pos (by omega : a.toNat < c.toNat)]
      · by_cases hcb : c.toNat < b.toNat
        · rw [if_neg hbc, if_pos hcb] at h2
          exact absurd h2 (by simp)
        · rw [if_pos (by omega : a.toNat < c.toNat)]
    · by_cases hba : b.toNat < a.toNat
      · rw [if_neg hab, if_pos hba] at h1
        exact absurd h1 (by simp)
      · rw [if_neg hab, if_neg hba] at h1
        by_cases hbc : b.toNat < c.toNat
        · rw [if_pos (by omega : a.toNat < c.toNat)]
        · by_cases hcb : c.toNat < b.toNat
          · rw [if_neg hbc, if_pos hcb] at h2
            exact absurd h2 (by simp)
          · rw [if_neg hbc, if_neg hcb] at h2
            rw [if_neg (by omega : ¬(a.toNat < c.toNat)),
              if_neg (by omega : ¬(c.toNat < a.toNat))]
            exact lexLe_trans as bs cs h1 h2

lemma lexLe_total : ∀ x y : List Char, (lexLe x y || lexLe y x) = true
  | [], _ => by simp [lexLe]
  | _ :: _, [] => by simp [lexLe]
  | a :: as, b :: bs => by
    simp only [lexLe]
    by_cases hab : a.toNat < b.toNat
    · simp [hab]
    · by_cases hba : b.toNat < a.toNat
      · simp [hab, hba]
      · simp only [hab, hba, if_false]
        exact lexLe_total as bs

lemma lexLe_antisymm : ∀ x y : List Char, lexLe x y = true → lexLe y x = true →
    x = y
  | [], [], _, _ => rfl
  | [], _ :: _, _, h => by simp [lexLe] at h
  | _ :: _, [], h, _ => by simp [lexLe] at h
  | a :: as, b :: bs, h1, h2 => by
    simp only [lexLe] at h1 h2
    by_cases hab : a.toNat < b.toNat
    · rw [if_neg (by omega : ¬(b.toNat < a.toNat)), if_pos hab] at h2
      exact absurd h2 (by simp)
    · by_cases hba : b.toNat < a.toNat
      · rw [if_neg hab, if_pos hba] at h1
        exact absurd h1 (by simp)
      · rw [if_neg hab, if_neg hba] at h1
        rw [if_neg hba, if_neg hab] at h2
        have hn : a.toNat = b.toNat := by omega
        have hc : a = b := by
          have h3 := congrArg Char.ofNat hn
          rwa [Char.ofNat_toNat, Char.ofNat_toNat] at h3
        rw [hc, lexLe_antisymm as bs h1 h2]

lemma strLe_antisymm (a b : String) (h1 : strLe a b = true) (h2 : strLe b a = true) :
    a = b := by
  have := lexLe_antisymm a.toList b.toList h1 h2
  cases a with
  | mk la =>
    cases b with
    | mk lb => exact congrArg String.mk this

/-- Sorting with `pySorted` depends only on the multiset of elements. -/
lemma pySorted_perm_eq {l1 l2 : List String} (h : l1.Perm l2) :
    pySorted l1 = pySorted l2 := by
  haveI : IsAntisymm String (fun a b => strLe a b = true) := ⟨strLe_antisymm⟩
  haveI : IsTotal String (fun a b => strLe a b = true) := ⟨fun a b =>
    Bool.or_eq_true_iff.mp (lexLe_total a.toList b.toList)⟩
  haveI : IsTrans String (fun a b => strLe a b = true) :=
    ⟨fun a b c h1 h2 => lexLe_trans a.toList b.toList c.toList h1 h2⟩
  exact List.eq_of_perm_of_sorted
    (((List.perm_insertionSort _ l1).trans h).trans
      (List.perm_insertionSort _ l2).symm)
    (List.sorted_insertionSort _ l1) (List.sorted_insertionSort _ l2)

/-- A cart item dict: the three string fields the fingerprint reads (absent
keys modelled as `none`, read through `dict.get(key, '')`), plus the price
payload of arbitrary type `P`, which the fingerprint never reads. -/
structure CartItem (P : Type) where
  name : Option String
  category : Option String
  active_ingredient : Option String
  price : Option P
deriving DecidableEq

/-- `item.get('name', '')`. -/
def itemName {P : Type} (it : CartItem P) : String := it.name.getD ""

/-- `item.get('category', '')`. -/
def itemCategory {P : Type} (it : CartItem P) : String := it.category.getD ""

/-- `item.get('active_ingredient', '')`. -/
def itemIngredient {P : Type} (it : CartItem P) : String :=
  it.active_ingredient.getD ""

/-- Four lowercase hex digits (`'\\u{0:04x}'`). -/
def hex4 (n : Nat) : List Char :=
  [hexDigitChar (n / 4096 % 16), hexDigitChar (n / 256 % 16),
   hexDigitChar (n / 16 % 16), hexDigitChar (n % 16)]

/-- `json.dumps` escaping of one character with `ensure_ascii=True`
(CPython's `py_encode_basestring_ascii`): backslash, quote and the short
control escapes; printable ASCII kept; anything else as `\uXXXX`, with a
surrogate pair for code points beyond the basic plane. -/
def escChar (c : Char) : List Char :=
  if c = '\\' then ['\\', '\\']
  else if c = '"' then ['\\', '"']
  else if c.toNat = 8 then ['\\', 'b']
  else if c.toNat = 12 then ['\\', 'f']
  else if c.toNat = 10 then ['\\', 'n']
  else if c.toNat = 13 then ['\\', 'r']
  else if c.toNat = 9 then ['\\', 't']
  else if 0x20 ≤ c.toNat ∧ c.toNat ≤ 0x7E then [c]
  else if c.toNat < 0x10000 then '\\' :: 'u' :: hex4 c.toNat
  else
    '\\' :: 'u' :: hex4 (0xD800 + (c.toNat - 0x10000) / 1024) ++
      ('\\' :: 'u' :: hex4 (0xDC00 + (c.toNat - 0x10000) % 1024))

/-- JSON encoding of one string: quote, escaped body, quote. -/
def encStr (s : String) : List Char :=
  '"' :: (s.toList.flatMap escChar) ++ ['"']

/-- The comma-separated items of a JSON array of strings (default `json.dumps`
separator `', '`). -/
def encItems : List String → List Char
  | [] => []
  | [s] => encStr s
  | s :: rest => encStr s ++ (',' :: ' ' :: encItems rest)

/-- JSON encoding of a list of strings. -/
def encList (l : List String) : List Char :=
  '[' :: encItems l ++ [']']

/-- The canonical serialization of `_generate_cart_hash`:
`json.dumps(d, sort_keys=True)` on the three sorted sequences; `sort_keys`
orders the keys `categories < ingredients < names`. -/
def serializeTriple (cats ings names : List String) : List Char :=
  "\x7b\"categories\": ".toList ++ encList cats ++
    ", \"ingredients\": ".toList ++ encList ings ++
    ", \"names\": ".toList ++ encList names ++ ['\x7d']

/-- The `hash_input` string of `ClaudeClient._generate_cart_hash` (lines
453-463): the separately sorted names, categories and active ingredients,
serialized in canonical key order. -/
def hash_input {P : Type} (cart_items : List (CartItem P)) : String :=
  String.mk (serializeTriple
    (pySorted (cart_items.map itemCategory))
    (pySorted (cart_items.map itemIngredient))
    (pySorted (cart_items.map itemName)))

/-- `ClaudeClient._generate_cart_hash`: the MD5 hex digest of the UTF-8
encoding of the canonical serialization. -/
def generate_cart_hash {P : Type} (cart_items : List (CartItem P)) : String :=
  md5Hex (utf8Bytes (hash_input cart_items))

/-- The sixteen lowercase hexadecimal digit characters. -/
def hexLowerDigits : List Char := "0123456789abcdef".toList

lemma mk_length (l : List Char) : (String.mk l).length = l.length := rfl

lemma hexDigitChar_mem : ∀ n < 16, hexDigitChar n ∈ hexLowerDigits := by decide

lemma byteToHex_mem (b : Nat) (ch : Char) (h : ch ∈ byteToHex b) :
    ch ∈ hexLowerDigits := by
  simp only [byteToHex, List.mem_cons, List.not_mem_nil, or_false] at h
  rcases h with h | h
  · exact h ▸ hexDigitChar_mem _ (Nat.mod_lt _ (by norm_num))
  · exact h ▸ hexDigitChar_mem _ (Nat.mod_lt _ (by norm_num))

lemma flatMap_byteToHex_mem (bs : List Nat) (ch : Char)
    (h : ch ∈ bs.flatMap byteToHex) : ch ∈ hexLowerDigits := by
  rcases List.mem_flatMap.mp h with ⟨b, _, hb⟩
  exact byteToHex_mem b ch hb

lemma flatMap_byteToHex_length (bs : List Nat) :
    (bs.flatMap byteToHex).length = 2 * bs.length := by
  induction bs with
  | nil => rfl
  | cons b t ih =>
    simp only [List.flatMap_cons, List.length_append, byteToHex, List.length_cons,
      List.length_nil, List.length_cons, ih]
    omega

/-- Every MD5 hex digest has exactly 32 characters. -/
lemma md5Hex_length (msg : List Nat) : (md5Hex msg).length = 32 := by
  unfold md5Hex
  rw [mk_length, flatMap_byteToHex_length]
  simp [wordLEBytes]

/-- Every character of an MD5 hex digest is a lowercase hex digit. -/
lemma md5Hex_chars (msg : List Nat) :
    ∀ ch ∈ (md5Hex msg).toList, ch ∈ hexLowerDigits := by
  unfold md5Hex
  intro ch h
  exact flatMap_byteToHex_mem _ ch h

/-- Claim C2.  The fingerprint is invariant under any permutation of the
cart, and is always a fixed-length (32-character, hence 128-bit) lowercase
hexadecimal digest, computed over the separately sorted name, category and
active-ingredient sequences with missing fields read as the empty string. -/
theorem claim_C2 {P : Type} (c1 c2 : List (CartItem P)) (h : c1.Perm c2) :
    generate_cart_hash c1 = generate_cart_hash c2 ∧
    (generate_cart_hash c1).length = 32 ∧
    ∀ ch ∈ (generate_cart_hash c1).toList, ch ∈ hexLowerDigits := by
  refine ⟨?_, md5Hex_length _, md5Hex_chars _⟩
  unfold generate_cart_hash hash_input
  rw [pySorted_perm_eq (h.map itemCategory), pySorted_perm_eq (h.map itemIngredient),
    pySorted_perm_eq (h.map itemName)]

/-- Witness for claim C2 on a concrete two-item cart and its reversal. -/
theorem claim_C2_witness :
    generate_cart_hash ([⟨some "A", some "C1", some "I1", some 5⟩,
        ⟨some "B", some "C2", some "I2", none⟩] : List (CartItem Int)) =
      generate_cart_hash [⟨some "B", some "C2", some "I2", none⟩,
        ⟨some "A", some "C1", some "I1", some 5⟩] ∧
    (generate_cart_hash ([⟨some "A", some "C1", some "I1", some 5⟩,
        ⟨some "B", some "C2", some "I2", none⟩] : List (CartItem Int))).length = 32 ∧
    ∀ ch ∈ (generate_cart_hash ([⟨some "A", some "C1", some "I1", some 5⟩,
        ⟨some "B", some "C2", some "I2", none⟩] : List (CartItem Int))).toList,
      ch ∈ hexLowerDigits :=
  claim_C2 ([⟨some "A", some "C1", some "I1", some 5⟩,
      ⟨some "B", some "C2", some "I2", none⟩] : List (CartItem Int))
    [⟨some "B", some "C2", some "I2", none⟩, ⟨some "A", some "C1", some "I1", some 5⟩]
    (List.Perm.swap _ _ _)

/-- Value of one lowercase hexadecimal digit character. -/
def hexVal (c : Char) : Option Nat :=
  if 48 ≤ c.toNat ∧ c.toNat ≤ 57 then some (c.toNat - 48)
  else if 97 ≤ c.toNat ∧ c.toNat ≤ 102 then some (c.toNat - 87)
  else none

/-- Value of four hexadecimal digit characters. -/
def hexVal4 (c1 c2 c3 c4 : Char) : Option Nat :=
  match hexVal c1, hexVal c2, hexVal c3, hexVal c4 with
  | some d1, some d2, some d3, some d4 => some (4096 * d1 + 256 * d2 + 16 * d3 + d4)
  | _, _, _, _ => none

/-- The short JSON escape table (`\\ \" \b \f \n \r \t`). -/
def escTable (e : Char) : Option Char :=
  if e = '\\' then some '\\'
  else if e = '"' then some '"'
  else if e = 'b' then some '\x08'
  else if e = 'f' then some '\x0c'
  else if e = 'n' then some '\n'
  else if e = 'r' then some '\x0d'
  else if e = 't' then some '\t'
  else none

/-- Result of reading one encoded character of a JSON string body: the
closing quote, one decoded character, or a malformed input. -/
inductive ReadRes where
  | done (rest : List Char)
  | chr (c : Char) (rest : List Char)
  | bad

/-- Read one encoded character of the body of `encStr`: a closing quote,
a short escape, a `\uXXXX` escape (reassembling surrogate pairs), or a
literal character.  Used only to prove the serialization injective, so
inputs outside the image of `encStr` may report `bad`. -/
def readOne : List Char → ReadRes
  | [] => .bad
  | c :: rest =>
    if c = '"' then .done rest
    else if c = '\\' then
      match rest with
      | [] => .bad
      | e :: rest2 =>
        if e = 'u' then
          match rest2 with
          | c1 :: c2 :: c3 :: c4 :: rest3 =>
            match hexVal4 c1 c2 c3 c4 with
            | none => .bad
            | some n =>
              if 0xD800 ≤ n ∧ n ≤ 0xDBFF then
                match rest3 with
                | b1 :: b2 :: d1 :: d2 :: d3 :: d4 :: rest4 =>
                  if b1 = '\\' ∧ b2 = 'u' then
                    match hexVal4 d1 d2 d3 d4 with
                    | none => .bad
                    | some m =>
                      if 0xDC00 ≤ m ∧ m ≤ 0xDFFF then
                        .chr (Char.ofNat (0x10000 + (n - 0xD800) * 1024 + (m - 0xDC00)))
                          rest4
                      else .bad
                  else .bad
                | _ => .bad
              else .chr (Char.ofNat n) rest3
          | _ => .bad
        else
          match escTable e with
          | none => .bad
          | some c2 => .chr c2 rest2
    else .chr c rest

/-- Read a whole JSON string body up to its closing quote (`fuel` bounds the
number of characters and is instantiated with the input length, which always
suffices). -/
def decStrBodyF : Nat → List Char → Option (List Char × List Char)
  | 0, _ => none
  | fuel + 1, cs =>
    match readOne cs with
    | .done rest => some ([], rest)
    | .chr c rest => (decStrBodyF fuel rest).map (fun p => (c :: p.1, p.2))
    | .bad => none

/-- Partial left inverse of `encStr`. -/
def decStr : List Char → Option (String × List Char)
  | [] => none
  | c :: rest =>
    if c = '"' then (decStrBodyF rest.length rest).map (fun p => (String.mk p.1, p.2))
    else none

/-- Partial left inverse of `encItems` followed by a closing bracket; `fuel`
bounds the number of items. -/
def decItems : Nat → List Char → Option (List String × List Char)
  | 0, _ => none
  | fuel + 1, cs =>
    match decStr cs with
    | none => none
    | some (s, rest) =>
      match rest with
      | [] => none
      | a :: rest1 =>
        if a = ']' then some ([s], rest1)
        else if a = ',' then
          match rest1 with
          | [] => none
          | b :: rest2 =>
            if b = ' ' then (decItems fuel rest2).map (fun p => (s :: p.1, p.2))
            else none
        else none

/-- Partial left inverse of `encList`. -/
def decList : List Char → Option (List String × List Char)
  | [] => none
  | c :: rest =>
    if c = '[' then
      match rest with
      | [] => none
      | d :: rest2 => if d = ']' then some ([], rest2) else decItems rest.length rest
    else none

/-- Consume an expected literal character sequence. -/
def expectChars : List Char → List Char → Option (List Char)
  | [], cs => some cs
  | _ :: _, [] => none
  | p :: ps, c :: cs => if c = p then expectChars ps cs else none

/-- Partial left inverse of `serializeTriple`. -/
def decodeTriple (cs : List Char) :
    Option (List String × List String × List String) :=
  match expectChars "\x7b\"categories\": ".toList cs with
  | none => none
  | some cs1 =>
    match decList cs1 with
    | none => none
    | some (cats, cs2) =>
      match expectChars ", \"ingredients\": ".toList cs2 with
      | none => none
      | some cs3 =>
        match decList cs3 with
        | none => none
        | some (ings, cs4) =>
          match expectChars ", \"names\": ".toList cs4 with
          | none => none
          | some cs5 =>
            match decList cs5 with
            | none => none
            | some (names, cs6) =>
              match cs6 with
              | [] => none
              | c :: rest =>
                if c = '\x7d' ∧ rest = [] then some (cats, ings, names) else none

lemma hexVal_hexDigitChar : ∀ n < 16, hexVal (hexDigitChar n) = some n := by decide

lemma hexVal4_hex4 (n : Nat) (h : n < 65536) :
    hexVal4 (hexDigitChar (n / 4096 % 16)) (hexDigitChar (n / 256 % 16))
      (hexDigitChar (n / 16 % 16)) (hexDigitChar (n % 16)) = some n := by
  have h1 := hexVal_hexDigitChar (n / 4096 % 16) (Nat.mod_lt _ (by norm_num))
  have h2 := hexVal_hexDigitChar (n / 256 % 16) (Nat.mod_lt _ (by norm_num))
  have h3 := hexVal_hexDigitChar (n / 16 % 16) (Nat.mod_lt _ (by norm_num))
  have h4 := hexVal_hexDigitChar (n % 16) (Nat.mod_lt _ (by norm_num))
  simp only [hexVal4, h1, h2, h3, h4, Option.some.injEq]
  omega


lemma hexVal_hexDigitChar2 : ∀ n < 16, hexVal (hexDigitChar n) = some n := by decide

lemma char_valid_toNat (c : Char) :
    c.toNat < 0xD800 ∨ (0xDFFF < c.toNat ∧ c.toNat < 0x110000) := by
  have hvt : c.toNat = c.val.toNat := rfl
  rcases c.valid with hv | hv
  · exact Or.inl (by omega)
  · exact Or.inr ⟨by omega, by omega⟩

lemma readOne_quote (rest : List Char) : readOne ('"' :: rest) = .done rest := by
  simp [readOne]

lemma readOne_u_bmp (n : Nat) (hlt : n < 65536)
    (hns : ¬(0xD800 ≤ n ∧ n ≤ 0xDBFF)) (tail : List Char) :
    readOne ('\\' :: 'u' :: (hex4 n ++ tail)) = .chr (Char.ofNat n) tail := by
  have hv4 := hexVal4_hex4 n hlt
  simp only [hex4, List.cons_append, List.nil_append]
  simp [readOne, hv4, hns]

lemma readOne_u_pair (n m : Nat) (hnlt : n < 65536) (hmlt : m < 65536)
    (hn : 0xD800 ≤ n ∧ n ≤ 0xDBFF) (hm : 0xDC00 ≤ m ∧ m ≤ 0xDFFF)
    (tail : List Char) :
    readOne ('\\' :: 'u' :: (hex4 n ++ ('\\' :: 'u' :: (hex4 m ++ tail)))) =
      .chr (Char.ofNat (0x10000 + (n - 0xD800) * 1024 + (m - 0xDC00))) tail := by
  have hv4n := hexVal4_hex4 n hnlt
  have hv4m := hexVal4_hex4 m hmlt
  simp only [hex4, List.cons_append, List.nil_append]
  simp [readOne, hv4n, hv4m, hn, hm]

/-- Reading back the escape of any character recovers that character. -/
lemma readOne_escChar (c : Char) (X : List Char) :
    readOne (escChar c ++ X) = .chr c X := by
  by_cases h1 : c = '\\'
  · subst h1
    rw [show escChar '\\' = ['\\', '\\'] from rfl]
    simp [readOne, escTable]
  · by_cases h2 : c = '"'
    · subst h2
      rw [show escChar '"' = ['\\', '"'] from rfl]
      simp [readOne, escTable]
    · by_cases h3 : c.toNat = 8
      · have hc : c = '\x08' := by
          have hx := Char.ofNat_toNat c
          rw [h3] at hx
          exact hx.symm.trans (by decide)
        subst hc
        rw [show escChar '\x08' = ['\\', 'b'] from rfl]
        simp [readOne, escTable]
      · by_cases h4 : c.toNat = 12
        · have hc : c = '\x0c' := by
            have hx := Char.ofNat_toNat c
            rw [h4] at hx
            exact hx.symm.trans (by decide)
          subst hc
          rw [show escChar '\x0c' = ['\\', 'f'] from rfl]
          simp [readOne, escTable]
        · by_cases h5 : c.toNat = 10
          · have hc : c = '\n' := by
              have hx := Char.ofNat_toNat c
              rw [h5] at hx
              exact hx.symm.trans (by decide)
            subst hc
            rw [show escChar '\n' = ['\\', 'n'] from rfl]
            simp [readOne, escTable]
          · by_cases h6 : c.toNat = 13
            · have hc : c = '\x0d' := by
                have hx := Char.ofNat_toNat c
                rw [h6] at hx
                exact hx.symm.trans (by decide)
              subst hc
              rw [show escChar '\x0d' = ['\\', 'r'] from rfl]
              simp [readOne, escTable]
            · by_cases h7 : c.toNat = 9
              · have hc : c = '\t' := by
                  have hx := Char.ofNat_toNat c
                  rw [h7] at hx
                  exact hx.symm.trans (by decide)
                subst hc
                rw [show escChar '\t' = ['\\', 't'] from rfl]
                simp [readOne, escTable]
              · by_cases h8 : 0x20 ≤ c.toNat ∧ c.toNat ≤ 0x7E
                · rw [show escChar c = [c] from by
                    simp only [escChar, if_neg h1, if_neg h2, if_neg h3, if_neg h4,
                      if_neg h5, if_neg h6, if_neg h7, if_pos h8]]
                  simp [readOne, h1, h2]
                · by_cases h9 : c.toNat < 0x10000
                  · have hsur : ¬(0xD800 ≤ c.toNat ∧ c.toNat ≤ 0xDBFF) := by
                      rcases char_valid_toNat c with hv | hv <;> omega
                    rw [show escChar c = '\\' :: 'u' :: hex4 c.toNat from by
                      simp only [escChar, if_neg h1, if_neg h2, if_neg h3, if_neg h4,
                        if_neg h5, if_neg h6, if_neg h7, if_neg h8, if_pos h9]]
                    rw [show ('\\' :: 'u' :: hex4 c.toNat) ++ X =
                      '\\' :: 'u' :: (hex4 c.toNat ++ X) from by
                        simp [List.cons_append]]
                    rw [readOne_u_bmp c.toNat h9 hsur, Char.ofNat_toNat]
                  · have hub : c.toNat < 0x110000 := by
                      rcases char_valid_toNat c with hv | hv <;> omega
                    have h10 : 0x10000 ≤ c.toNat := by omega
                    have hhi : 0xD800 + (c.toNat - 0x10000) / 1024 < 65536 := by omega
                    have hlo : 0xDC00 + (c.toNat - 0x10000) % 1024 < 65536 := by omega
                    have hsur : 0xD800 ≤ 0xD800 + (c.toNat - 0x10000) / 1024 ∧
                        0xD800 + (c.toNat - 0x10000) / 1024 ≤ 0xDBFF := by
                      constructor <;> omega
                    have hsur2 : 0xDC00 ≤ 0xDC00 + (c.toNat - 0x10000) % 1024 ∧
                        0xDC00 + (c.toNat - 0x10000) % 1024 ≤ 0xDFFF := by
                      constructor <;> omega
                    rw [show escChar c = '\\' :: 'u' ::
                        hex4 (0xD800 + (c.toNat - 0x10000) / 1024) ++
                        ('\\' :: 'u' :: hex4 (0xDC00 + (c.toNat - 0x10000) % 1024))
                      from by
                      simp only [escChar, if_neg h1, if_neg h2, if_neg h3, if_neg h4,
                        if_neg h5, if_neg h6, if_neg h7, if_neg h8, if_neg h9]]
                    rw [show ('\\' :: 'u' ::
                        hex4 (0xD800 + (c.toNat - 0x10000) / 1024) ++
                        ('\\' :: 'u' :: hex4 (0xDC00 + (c.toNat - 0x10000) % 1024)))
                        ++ X =
                      '\\' :: 'u' :: (hex4 (0xD800 + (c.toNat - 0x10000) / 1024) ++
                        ('\\' :: 'u' ::
                          (hex4 (0xDC00 + (c.toNat - 0x10000) % 1024) ++ X))) from by
                        simp [List.cons_append, List.append_assoc]]
                    rw [readOne_u_pair _ _ hhi hlo hsur hsur2 X]
                    rw [show 0x10000 +
                      (0xD800 + (c.toNat - 0x10000) / 1024 - 0xD800) * 1024 +
                      (0xDC00 + (c.toNat - 0x10000) % 1024 - 0xDC00) = c.toNat from by
                        omega, Char.ofNat_toNat]

lemma escChar_length_pos (c : Char) : 1 ≤ (escChar c).length := by
  unfold escChar
  split_ifs <;> simp [hex4]

lemma length_le_flatMap_escChar (l : List Char) :
    l.length ≤ (l.flatMap escChar).length := by
  induction l with
  | nil => simp
  | cons c t ih =>
    simp only [List.flatMap_cons, List.length_append, List.length_cons]
    have := escChar_length_pos c
    omega

lemma decStrBodyF_roundtrip : ∀ (l : List Char) (fuel : Nat) (rest : List Char),
    l.length < fuel →
    decStrBodyF fuel (l.flatMap escChar ++ '"' :: rest) = some (l, rest) := by
  intro l
  induction l with
  | nil =>
    intro fuel rest h
    obtain ⟨f, rfl⟩ : ∃ f, fuel = f + 1 := ⟨fuel - 1, by omega⟩
    simp only [List.flatMap_nil, List.nil_append]
    rw [decStrBodyF.eq_def]
    simp [readOne_quote]
  | cons c t ih =>
    intro fuel rest h
    obtain ⟨f, rfl⟩ : ∃ f, fuel = f + 1 := ⟨fuel - 1, by omega⟩
    have hrec := ih f rest (by simp only [List.length_cons] at h; omega)
    simp only [List.flatMap_cons, List.append_assoc]
    rw [decStrBodyF.eq_def]
    simp [readOne_escChar, hrec]

lemma mk_toList (s : String) : String.mk s.toList = s := rfl

lemma decStr_roundtrip (s : String) (rest : List Char) :
    decStr (encStr s ++ rest) = some (s, rest) := by
  have hlen : s.toList.length < (s.toList.flatMap escChar ++ '"' :: rest).length := by
    simp only [List.length_append, List.length_cons]
    have := length_le_flatMap_escChar s.toList
    omega
  rw [show encStr s ++ rest = '"' :: (s.toList.flatMap escChar ++ '"' :: rest) from by
    simp [encStr]]
  rw [decStr.eq_def]
  simp only [if_pos (rfl : ('"' : Char) = '"')]
  rw [decStrBodyF_roundtrip s.toList _ rest hlen]
  simp [mk_toList]

lemma length_le_encItems : ∀ ss : List String, ss.length ≤ (encItems ss).length := by
  intro ss
  induction ss with
  | nil => simp [encItems]
  | cons s t ih =>
    rcases t with _ | ⟨s2, t2⟩
    · simp [encItems, encStr]
    · rw [show encItems (s :: s2 :: t2) =
        encStr s ++ (',' :: ' ' :: encItems (s2 :: t2)) from rfl]
      simp only [List.length_append, List.length_cons, encStr]
      simp only [List.length_cons] at ih ⊢
      omega

lemma decItems_roundtrip : ∀ (ss : List String) (fuel : Nat) (rest : List Char),
    ss ≠ [] → ss.length ≤ fuel →
    decItems fuel (encItems ss ++ ']' :: rest) = some (ss, rest) := by
  intro ss
  induction ss with
  | nil => intro fuel rest h _; exact absurd rfl h
  | cons s t ih =>
    intro fuel rest _ hf
    obtain ⟨f, rfl⟩ : ∃ f, fuel = f + 1 :=
      ⟨fuel - 1, by simp only [List.length_cons] at hf; omega⟩
    rcases t with _ | ⟨s2, t2⟩
    · rw [show encItems [s] = encStr s from rfl]
      rw [decItems.eq_def]
      simp [decStr_roundtrip s (']' :: rest)]
    · rw [show encItems (s :: s2 :: t2) =
        encStr s ++ (',' :: ' ' :: encItems (s2 :: t2)) from rfl]
      have hrec := ih f rest (by simp) (by simp only [List.length_cons] at hf ⊢; omega)
      simp only [List.append_assoc, List.cons_append]
      rw [decItems.eq_def]
      simp [decStr_roundtrip s (',' :: ' ' :: (encItems (s2 :: t2) ++ ']' :: rest)),
        hrec]

lemma decList_roundtrip (ss : List String) (rest : List Char) :
    decList (encList ss ++ rest) = some (ss, rest) := by
  rcases ss with _ | ⟨s, t⟩
  · rw [show encList [] ++ rest = '[' :: ']' :: rest from rfl]
    rw [decList.eq_def]
    simp
  · rw [show encList (s :: t) ++ rest = '[' :: (encItems (s :: t) ++ ']' :: rest)
      from by simp [encList]]
    obtain ⟨Y, hY⟩ : ∃ Y, encItems (s :: t) = '"' :: Y := by
      rcases t with _ | ⟨s2, t2⟩
      · exact ⟨s.toList.flatMap escChar ++ ['"'], by simp [encItems, encStr]⟩
      · exact ⟨(s.toList.flatMap escChar ++ ['"']) ++
          (',' :: ' ' :: encItems (s2 :: t2)), by simp [encItems, encStr]⟩
    have hfe : (s :: t).length ≤ (encItems (s :: t) ++ ']' :: rest).length := by
      have := length_le_encItems (s :: t)
      simp only [List.length_append, List.length_cons] at *
      omega
    have hlen2 : (s :: t).length ≤ Y.length + (rest.length + 1) + 1 := by
      have h1 := length_le_encItems (s :: t)
      rw [hY] at h1
      simp only [List.length_cons] at h1 ⊢
      omega
    rw [decList.eq_def, hY]
    simp only [List.cons_append]
    simp
    rw [show ('"' :: (Y ++ ']' :: rest) : List Char) = encItems (s :: t) ++ ']' :: rest
      from by rw [hY]; simp]
    exact decItems_roundtrip (s :: t) _ rest (by simp) hlen2

lemma expectChars_roundtrip : ∀ (pat rest : List Char),
    expectChars pat (pat ++ rest) = some rest := by
  intro pat
  induction pat with
  | nil => intro rest; rfl
  | cons p ps ih => intro rest; simp [expectChars, ih rest]

lemma decodeTriple_roundtrip (cats ings names : List String) :
    decodeTriple (serializeTriple cats ings names) = some (cats, ings, names) := by
  simp [decodeTriple, serializeTriple, List.append_assoc, expectChars,
    decList_roundtrip]

lemma serializeTriple_inj {a b c a2 b2 c2 : List String}
    (h : serializeTriple a b c = serializeTriple a2 b2 c2) :
    a = a2 ∧ b = b2 ∧ c = c2 := by
  have h1 := decodeTriple_roundtrip a b c
  rw [h, decodeTriple_roundtrip a2 b2 c2] at h1
  simp only [Option.some.injEq, Prod.mk.injEq] at h1
  exact ⟨h1.1.symm, h1.2.1.symm, h1.2.2.symm⟩

lemma pySorted_eq_perm {A B : List String} (h : pySorted A = pySorted B) :
    A.Perm B := by
  have h1 : (pySorted A).Perm A := List.perm_insertionSort _ A
  have h2 : (pySorted B).Perm B := List.perm_insertionSort _ B
  rw [← h] at h2
  exact h1.symm.trans h2

/-- Equal digest inputs force the three per-field multisets to coincide. -/
lemma hash_input_perm {P : Type} {c1 c2 : List (CartItem P)}
    (h : hash_input c1 = hash_input c2) :
    (c1.map itemName).Perm (c2.map itemName) ∧
    (c1.map itemCategory).Perm (c2.map itemCategory) ∧
    (c1.map itemIngredient).Perm (c2.map itemIngredient) := by
  unfold hash_input at h
  have hdata := congrArg String.data h
  obtain ⟨hc, hi, hn⟩ := serializeTriple_inj hdata
  exact ⟨pySorted_eq_perm hn, pySorted_eq_perm hc, pySorted_eq_perm hi⟩

lemma middle_elem_eq (x y : String) (A B : List String)
    (hp : (A ++ x :: B).Perm (A ++ y :: B)) : x = y := by
  have h1 : (x :: (A ++ B)).Perm (y :: (A ++ B)) :=
    List.perm_middle.symm.trans (hp.trans List.perm_middle)
  by_contra hxy
  have hc := h1.count_eq x
  rw [List.count_cons_self, List.count_cons_of_ne hxy] at hc
  omega

lemma single_change_breaks {P : Type} (proj : CartItem P → String)
    (pre post : List (CartItem P)) (it it2 : CartItem P)
    (hne : proj it2 ≠ proj it)
    (hperm : ((pre ++ it :: post).map proj).Perm ((pre ++ it2 :: post).map proj)) :
    False := by
  rw [List.map_append, List.map_cons, List.map_append, List.map_cons] at hperm
  exact hne (middle_elem_eq _ _ _ _ hperm).symm

/-- The per-item (name, category, active ingredient) triples of a cart. -/
def cartTriples {P : Type} (c : List (CartItem P)) :
    List (String × String × String) :=
  c.map (fun it => (itemName it, itemCategory it, itemIngredient it))

/-- Counterexample to claim C3: two carts whose triple multisets differ —
the category assignments of the two items are swapped — but whose separately
sorted name, category and ingredient sequences coincide, so the fingerprint
is identical with certainty. -/
theorem claim_C3_counterexample :
    generate_cart_hash ([⟨some "A", some "X", some "I", none⟩,
        ⟨some "B", some "Y", some "J", none⟩] : List (CartItem Int)) =
      generate_cart_hash ([⟨some "A", some "Y", some "I", none⟩,
        ⟨some "B", some "X", some "J", none⟩] : List (CartItem Int)) ∧
    ¬ (cartTriples ([⟨some "A", some "X", some "I", none⟩,
          ⟨some "B", some "Y", some "J", none⟩] : List (CartItem Int))).Perm
        (cartTriples ([⟨some "A", some "Y", some "I", none⟩,
          ⟨some "B", some "X", some "J", none⟩] : List (CartItem Int))) := by
  constructor
  · exact congrArg (fun s => md5Hex (utf8Bytes s))
      (by decide :
        hash_input ([⟨some "A", some "X", some "I", none⟩,
          ⟨some "B", some "Y", some "J", none⟩] : List (CartItem Int)) =
        hash_input ([⟨some "A", some "Y", some "I", none⟩,
          ⟨some "B", some "X", some "J", none⟩] : List (CartItem Int)))
  · decide

/-- Claim C3, amended.  Two carts get the same digest input exactly when
their per-field multisets (names, categories, active ingredients, each taken
separately) agree, so a difference in any one of the per-field multisets
changes the digest input, and hence — barring an MD5 collision — the
fingerprint; in particular, changing a single item's name, category or
active ingredient to a new value always changes the digest input.  (Carts
with equal per-field multisets but different triple multisets collide with
certainty; see the counterexample.) -/
theorem claim_C3_amended {P : Type} (c1 c2 : List (CartItem P)) :
    (hash_input c1 = hash_input c2 →
      (c1.map itemName).Perm (c2.map itemName) ∧
      (c1.map itemCategory).Perm (c2.map itemCategory) ∧
      (c1.map itemIngredient).Perm (c2.map itemIngredient)) ∧
    (∀ (pre post : List (CartItem P)) (it : CartItem P) (n : String),
      n ≠ itemName it →
      hash_input (pre ++ it :: post) ≠
        hash_input (pre ++ { it with name := some n } :: post)) ∧
    (∀ (pre post : List (CartItem P)) (it : CartItem P) (n : String),
      n ≠ itemCategory it →
      hash_input (pre ++ it :: post) ≠
        hash_input (pre ++ { it with category := some n } :: post)) ∧
    (∀ (pre post : List (CartItem P)) (it : CartItem P) (n : String),
      n ≠ itemIngredient it →
      hash_input (pre ++ it :: post) ≠
        hash_input (pre ++ { it with active_ingredient := some n } :: post)) := by
  refine ⟨fun h => hash_input_perm h, ?_, ?_, ?_⟩
  · intro pre post it n hne heq
    exact single_change_breaks itemName pre post it _
      (by simpa [itemName] using hne) (hash_input_perm heq).1
  · intro pre post it n hne heq
    exact single_change_breaks itemCategory pre post it _
      (by simpa [itemCategory] using hne) (hash_input_perm heq).2.1
  · intro pre post it n hne heq
    exact single_change_breaks itemIngredient pre post it _
      (by simpa [itemIngredient] using hne) (hash_input_perm heq).2.2

/-- Witness for the amended claim C3: renaming the only item of a concrete
one-item cart changes the digest input. -/
theorem claim_C3_amended_witness :
    hash_input ([⟨some "A", some "C", some "I", none⟩] : List (CartItem Int)) ≠
      hash_input ([⟨some "B", some "C", some "I", none⟩] : List (CartItem Int)) := by
  have h := (claim_C3_amended ([] : List (CartItem Int)) []).2.1 [] []
    ⟨some "A", some "C", some "I", none⟩ "B" (by decide)
  exact h

/-- A recommendation-result dict as stored in the cache: the `source` tag
plus the payload fields the hit path never touches. -/
structure RecResult where
  source : String
  recommendations : List RecommendationItem
  analysis : String
deriving DecidableEq

/-- State relevant to the cache-hit path of `get_recommendations`.  Python
dicts are mutable objects shared by reference, so the cache maps fingerprints
to references into a heap of result dicts; `cache_hits` is the client's hit
counter. -/
structure HitState where
  cacheRefs : List (String × Nat)
  heap : List (Nat × RecResult)
  cache_hits : Nat
deriving DecidableEq

/-- In-place mutation `obj["source"] = v` of the heap object at reference
`r`: every holder of that reference observes the change. -/
def heapSetSource (h : List (Nat × RecResult)) (r : Nat) (v : String) :
    List (Nat × RecResult) :=
  h.map (fun p => if p.1 = r then (p.1, { p.2 with source := v }) else p)

/-- The cache-hit path of `ClaudeClient.get_recommendations` (lines
237-243): `cached = self.cache_manager.get(cart_hash)`; on a hit the hit
counter is bumped, the shared stored dict is retagged in place
(`cached["source"] = "cache"`), and that same object is returned by
reference.  A miss returns `none` (the miss path continues to the
generation call, modelled elsewhere). -/
def hit_path (st : HitState) (cart_hash : String) : Option (Nat × HitState) :=
  match List.lookup cart_hash st.cacheRefs with
  | none => none
  | some r =>
    some (r, { st with heap := heapSetSource st.heap r "cache",
                       cache_hits := st.cache_hits + 1 })

lemma heapSetSource_cons (a : Nat) (b : RecResult) (t : List (Nat × RecResult))
    (r : Nat) (v : String) :
    heapSetSource ((a, b) :: t) r v =
      (if a = r then (a, { b with source := v }) else (a, b)) :: heapSetSource t r v := by
  simp only [heapSetSource, List.map_cons]

lemma lookup_heapSetSource (h : List (Nat × RecResult)) (r r2 : Nat) (v : String) :
    List.lookup r2 (heapSetSource h r v) =
      if r2 = r then (List.lookup r2 h).map (fun res => { res with source := v })
      else List.lookup r2 h := by
  induction h with
  | nil => simp [heapSetSource, List.lookup]
  | cons p t ih =>
    cases p with
    | mk a b =>
      rw [heapSetSource_cons]
      by_cases ha : a = r
      · rw [if_pos ha]
        subst ha
        by_cases h2 : r2 = a
        · subst h2
          simp [List.lookup]
        · have hb : (r2 == a) = false := beq_eq_false_iff_ne.mpr h2
          simp [List.lookup, hb, ih, h2]
      · rw [if_neg ha]
        by_cases h2 : r2 = a
        · subst h2
          have hne : r2 ≠ r := ha
          simp [List.lookup, hne]
        · have hb : (r2 == a) = false := beq_eq_false_iff_ne.mpr h2
          simp [List.lookup, hb, ih]

/-- Counterexample to claim C9: on a hit, the stored dict itself is retagged
— after the hit the value stored under the fingerprint carries
`source = "cache"`, not the `"api"` written at store time, because the
returned value and the stored value are the same object. -/
theorem claim_C9_counterexample :
    hit_path ⟨[("h", 0)], [(0, ⟨"api", [], "a"⟩)], 0⟩ "h" =
      some (0, ⟨[("h", 0)], [(0, ⟨"cache", [], "a"⟩)], 1⟩) ∧
    (List.lookup 0 ([(0, (⟨"cache", [], "a"⟩ : RecResult))])).map RecResult.source ≠
      some "api" := by
  constructor
  · decide
  · decide

/-- Claim C9, amended.  A cache hit returns the stored object itself,
retagged in place: afterwards the entry under the fingerprint has
`source = "cache"` (no longer `"api"`), all its other fields are unchanged,
every other stored object and the cache mapping are untouched, and the hit
counter is bumped by one. -/
theorem claim_C9_amended (st : HitState) (key : String) (r : Nat)
    (res : RecResult) (hk : List.lookup key st.cacheRefs = some r)
    (hr : List.lookup r st.heap = some res) :
    ∃ st', hit_path st key = some (r, st') ∧
      List.lookup r st'.heap = some { res with source := "cache" } ∧
      (∀ r2, r2 ≠ r → List.lookup r2 st'.heap = List.lookup r2 st.heap) ∧
      st'.cacheRefs = st.cacheRefs ∧
      st'.cache_hits = st.cache_hits + 1 := by
  refine ⟨{ st with heap := heapSetSource st.heap r "cache",
                    cache_hits := st.cache_hits + 1 }, ?_, ?_, ?_, rfl, rfl⟩
  · simp [hit_path, hk]
  · rw [lookup_heapSetSource, if_pos rfl, hr]
    rfl
  · intro r2 h2
    rw [lookup_heapSetSource, if_neg h2]

/-- Witness for the amended claim C9 at a concrete one-entry state. -/
theorem claim_C9_amended_witness :
    ∃ st', hit_path ⟨[("h", 7)], [(7, ⟨"api", [], "x"⟩)], 3⟩ "h" = some (7, st') ∧
      List.lookup 7 st'.heap = some ⟨"cache", [], "x"⟩ ∧
      st'.cacheRefs = [("h", 7)] ∧ st'.cache_hits = 4 := by
  obtain ⟨st', h1, h2, h3, h4, h5⟩ :=
    claim_C9_amended ⟨[("h", 7)], [(7, ⟨"api", [], "x"⟩)], 3⟩ "h" 7
      ⟨"api", [], "x"⟩ (by decide) (by decide)
  exact ⟨st', h1, h2, h4, h5⟩

/-- A parsed JSON value.  Numbers keep their literal text: no claim inspects
numeric values, and this avoids modelling float conversion.  Objects keep
their fields in textual order (Python dicts deduplicate repeated keys
last-wins; no modelled input repeats keys, and key membership agrees). -/
inductive Json where
  | jnull
  | jbool (b : Bool)
  | jnum (lit : String)
  | jstr (s : String)
  | jarr (elems : List Json)
  | jobj (fields : List (String × Json))

/-- JSON whitespace (`' \t\n\r'`, the `json` module's `_w` class). -/
def jsonWs (c : Char) : Bool :=
  c = ' ' || c = '\t' || c = '\n' || c = '\x0d'

/-- Value of one hexadecimal digit, either case (JSON `\uXXXX` escapes). -/
def jsonHexVal (c : Char) : Option Nat :=
  if 48 ≤ c.toNat ∧ c.toNat ≤ 57 then some (c.toNat - 48)
  else if 97 ≤ c.toNat ∧ c.toNat ≤ 102 then some (c.toNat - 87)
  else if 65 ≤ c.toNat ∧ c.toNat ≤ 70 then some (c.toNat - 55)
  else none

def jsonHexVal4 (c1 c2 c3 c4 : Char) : Option Nat :=
  match jsonHexVal c1, jsonHexVal c2, jsonHexVal c3, jsonHexVal c4 with
  | some d1, some d2, some d3, some d4 => some (4096 * d1 + 256 * d2 + 16 * d3 + d4)
  | _, _, _, _ => none

/-- The JSON short escapes (`py_scanstring`'s BACKSLASH table). -/
def jsonEscTable (e : Char) : Option Char :=
  if e = '\\' then some '\\'
  else if e = '"' then some '"'
  else if e = '/' then some '/'
  else if e = 'b' then some '\x08'
  else if e = 'f' then some '\x0c'
  else if e = 'n' then some '\n'
  else if e = 'r' then some '\x0d'
  else if e = 't' then some '\t'
  else none

/-- Read one character of a JSON string (`py_scanstring`, strict mode): the
closing quote, a short escape, a `\uXXXX` escape with surrogate-pair
reassembly, or a literal non-control character.  A lone surrogate — which
Python would keep as an unpaired surrogate code unit, a value a Lean `Char`
cannot carry — reports `bad`; no claim exercises lone surrogates. -/
def jsonReadOne : List Char → ReadRes
  | [] => .bad
  | c :: rest =>
    if c = '"' then .done rest
    else if c = '\\' then
      match rest with
      | [] => .bad
      | e :: rest2 =>
        if e = 'u' then
          match rest2 with
          | c1 :: c2 :: c3 :: c4 :: rest3 =>
            match jsonHexVal4 c1 c2 c3 c4 with
            | none => .bad
            | some n =>
              if 0xD800 ≤ n ∧ n ≤ 0xDBFF then
                match rest3 with
                | b1 :: b2 :: d1 :: d2 :: d3 :: d4 :: rest4 =>
                  if b1 = '\\' ∧ b2 = 'u' then
                    match jsonHexVal4 d1 d2 d3 d4 with
                    | none => .bad
                    | some m =>
                      if 0xDC00 ≤ m ∧ m ≤ 0xDFFF then
                        .chr (Char.ofNat (0x10000 + (n - 0xD800) * 1024 + (m - 0xDC00)))
                          rest4
                      else .bad
                  else .bad
                | _ => .bad
              else if 0xDC00 ≤ n ∧ n ≤ 0xDFFF then .bad
              else .chr (Char.ofNat n) rest3
          | _ => .bad
        else
          match jsonEscTable e with
          | none => .bad
          | some c2 => .chr c2 rest2
    else if c.toNat < 0x20 then .bad
    else .chr c rest

/-- Read a whole JSON string body up to its closing quote. -/
def jsonStrBodyF : Nat → List Char → Option (List Char × List Char)
  | 0, _ => none
  | fuel + 1, cs =>
    match jsonReadOne cs with
    | .done rest => some ([], rest)
    | .chr c rest => (jsonStrBodyF fuel rest).map (fun p => (c :: p.1, p.2))
    | .bad => none

def isDigitChar (c : Char) : Bool := 48 ≤ c.toNat && c.toNat ≤ 57

/-- Read a JSON number literal (the scanner's `NUMBER_RE`:
`(-?(?:0|[1-9]\d*))(\.\d+)?([eE][-+]?\d+)?`), returning its text. -/
def readNumber (cs : List Char) : Option (List Char × List Char) :=
  let (sign, cs1) : List Char × List Char :=
    match cs with
    | c :: rest => if c = '-' then (['-'], rest) else ([], cs)
    | [] => ([], cs)
  match cs1 with
  | [] => none
  | c :: rest =>
    if c = '0' ∨ ¬(isDigitChar c = true) then
      if c = '0' then
        let (frac, cs2) := readFracExp rest
        some (sign ++ ['0'] ++ frac, cs2)
      else none
    else
      let digits := rest.takeWhile isDigitChar
      let cs2 := rest.dropWhile isDigitChar
      let (frac, cs3) := readFracExp cs2
      some (sign ++ c :: digits ++ frac, cs3)
where
  /-- The optional fraction and exponent parts. -/
  readFracExp (cs : List Char) : List Char × List Char :=
    let (frac, cs1) : List Char × List Char :=
      match cs with
      | c :: rest =>
        if c = '.' then
          let ds := rest.takeWhile isDigitChar
          if ds = [] then ([], cs)
          else ('.' :: ds, rest.dropWhile isDigitChar)
        else ([], cs)
      | [] => ([], cs)
    match cs1 with
    | c :: rest =>
      if c = 'e' ∨ c = 'E' then
        let (sign2, rest2) : List Char × List Char :=
          match rest with
          | s :: r2 => if s = '+' ∨ s = '-' then ([s], r2) else ([], rest)
          | [] => ([], rest)
        let ds := rest2.takeWhile isDigitChar
        if ds = [] then (frac, cs1)
        else (frac ++ c :: sign2 ++ ds, rest2.dropWhile isDigitChar)
      else (frac, cs1)
    | [] => (frac, cs1)

mutual

/-- Parse one JSON value after skipping leading whitespace (`json.scanner`):
a string, object, array, `true`/`false`/`null`, one of the `allow_nan`
constants, or a number.  `fuel` bounds the recursion; each parsed value or
field consumes at least one character, so the input length suffices. -/
def parseJsonValue : Nat → List Char → Option (Json × List Char)
  | 0, _ => none
  | fuel + 1, cs0 =>
    match cs0.dropWhile jsonWs with
    | [] => none
    | c :: rest =>
      if c = '"' then
        (jsonStrBodyF rest.length rest).map (fun p => (Json.jstr (String.mk p.1), p.2))
      else if c = '\x7b' then
        match rest.dropWhile jsonWs with
        | [] => none
        | c2 :: rest2 =>
          if c2 = '\x7d' then some (Json.jobj [], rest2)
          else
            (parseJsonFields fuel (rest.dropWhile jsonWs)).map
              (fun p => (Json.jobj p.1, p.2))
      else if c = '[' then
        match rest.dropWhile jsonWs with
        | [] => none
        | c2 :: rest2 =>
          if c2 = ']' then some (Json.jarr [], rest2)
          else
            (parseJsonElems fuel (rest.dropWhile jsonWs)).map
              (fun p => (Json.jarr p.1, p.2))
      else if c = 't' then
        (expectChars "rue".toList rest).map (fun r => (Json.jbool true, r))
      else if c = 'f' then
        (expectChars "alse".toList rest).map (fun r => (Json.jbool false, r))
      else if c = 'n' then
        (expectChars "ull".toList rest).map (fun r => (Json.jnull, r))
      else if c = 'N' then
        (expectChars "aN".toList rest).map (fun r => (Json.jnum "NaN", r))
      else if c = 'I' then
        (expectChars "nfinity".toList rest).map (fun r => (Json.jnum "Infinity", r))
      else
        match readNumber (c :: rest) with
        | some (lit, rest2) => some (Json.jnum (String.mk lit), rest2)
        | none =>
          if c = '-' then
            (expectChars "Infinity".toList rest).map
              (fun r => (Json.jnum "-Infinity", r))
          else none

/-- Parse the comma-separated elements of a non-empty JSON array, up to and
including the closing bracket. -/
def parseJsonElems : Nat → List Char → Option (List Json × List Char)
  | 0, _ => none
  | fuel + 1, cs =>
    match parseJsonValue fuel cs with
    | none => none
    | some (v, rest) =>
      match rest.dropWhile jsonWs with
      | [] => none
      | c :: rest2 =>
        if c = ']' then some ([v], rest2)
        else if c = ',' then
          (parseJsonElems fuel rest2).map (fun p => (v :: p.1, p.2))
        else none

/-- Parse the fields of a non-empty JSON object, up to and including the
closing brace (strict keys: a quoted string, then colon, then value). -/
def parseJsonFields : Nat → List Char → Option (List (String × Json) × List Char)
  | 0, _ => none
  | fuel + 1, cs =>
    match cs.dropWhile jsonWs with
    | [] => none
    | c :: rest =>
      if c = '"' then
        match jsonStrBodyF rest.length rest with
        | none => none
        | some (key, rest2) =>
          match rest2.dropWhile jsonWs with
          | [] => none
          | c2 :: rest3 =>
            if c2 = ':' then
              match parseJsonValue fuel rest3 with
              | none => none
              | some (v, rest4) =>
                match rest4.dropWhile jsonWs with
                | [] => none
                | c3 :: rest5 =>
                  if c3 = '\x7d' then some ([(String.mk key, v)], rest5)
                  else if c3 = ',' then
                    (parseJsonFields fuel rest5).map
                      (fun p => ((String.mk key, v) :: p.1, p.2))
                  else none
            else none
      else none

end

/-- `json.loads`: parse exactly one JSON value with optional surrounding
whitespace; anything left over is an error. -/
def jsonLoads (s : String) : Option Json :=
  match parseJsonValue (s.toList.length + 1) s.toList with
  | some (v, rest) => if rest.dropWhile jsonWs = [] then some v else none
  | none => none

/-- Python's default `str.strip` over the whitespace characters occurring in
this repository's data (ASCII whitespace; full Unicode stripping is not
needed by any claim). -/
def pyWsChar (c : Char) : Bool :=
  c = ' ' || c = '\t' || c = '\n' || c = '\x0d' || c = '\x0b' || c = '\x0c'

def pyStrip (s : String) : String :=
  String.mk (((s.toList.dropWhile pyWsChar).reverse.dropWhile pyWsChar).reverse)

/-- The membership test `"recommendations" in data` on a parsed value: key
membership for a dict, element equality for a list, substring for a string,
and a `TypeError` (reported as `none`) for every other type. -/
def inCheck (j : Json) : Option Bool :=
  match j with
  | .jobj fields => some (fields.any (fun p => p.1 == "recommendations"))
  | .jarr elems => some (elems.any (fun e =>
      match e with
      | .jstr s => s == "recommendations"
      | _ => false))
  | .jstr s => some (pyContains "recommendations" s)
  | _ => none

/-- One attempt of the stage-2 fenced-block pattern
(`` ```(?:json)?\s*(\{.*?\})\s*``` `` with DOTALL) anchored at the current
position: the literal fence, an optional `json` tag, whitespace, then the
lazily shortest brace-to-brace capture whose closing brace is followed by
whitespace and a closing fence.  (The regex's backtracking is deterministic
here: `\s*` and `[^...]`-free lazy repetition cannot trade characters with
the literal delimiters.)  Returns the capture and the rest of the input
after the full match. -/
def fenceClose : List Char → Option (List Char × List Char)
  | [] => none
  | c :: rest =>
    if c = '\x7d' then
      match expectChars "```".toList (rest.dropWhile pyWsChar) with
      | some r => some ([], r)
      | none => (fenceClose rest).map (fun p => (c :: p.1, p.2))
    else (fenceClose rest).map (fun p => (c :: p.1, p.2))

def fenceMatchAt (cs : List Char) : Option (List Char × List Char) :=
  match expectChars "```".toList cs with
  | none => none
  | some r1 =>
    let r2 := match expectChars "json".toList r1 with
      | some r => r
      | none => r1
    match r2.dropWhile pyWsChar with
    | [] => none
    | c :: rest =>
      if c = '\x7b' then
        (fenceClose rest).map (fun p => ('\x7b' :: p.1 ++ ['\x7d'], p.2))
      else none

/-- `re.findall` scanning for the fenced-block pattern: left to right,
non-overlapping, resuming after each full match. -/
def fenceScan : Nat → List Char → List (List Char)
  | 0, _ => []
  | fuel + 1, cs =>
    match cs with
    | [] => []
    | _ :: rest =>
      match fenceMatchAt cs with
      | some (cap, restAfter) => cap :: fenceScan fuel restAfter
      | none => fenceScan fuel rest

/-- The stage-2 candidates of `parse_recommendations`. -/
def fenceCandidates (cs : List Char) : List (List Char) :=
  fenceScan cs.length cs

def nonBrace (c : Char) : Bool := !(c == '\x7b') && !(c == '\x7d')

/-- The stage-3 pattern `\{[^{}]*(?:\{[^{}]*\}[^{}]*)*\}` after its opening
brace: brace-free runs interleaved with single-depth inner groups, ending at
the first return to the outer level.  A third nesting level (or an unclosed
brace) fails the whole match at this start position — by the backtracking
analysis, no shorter parse can succeed either, because every run is maximal
and the pattern's literals only match braces. -/
def braceTailF : Nat → List Char → Option (List Char × List Char)
  | 0, _ => none
  | fuel + 1, cs =>
    let run := cs.takeWhile nonBrace
    match cs.dropWhile nonBrace with
    | [] => none
    | c :: rest =>
      if c = '\x7d' then some (run ++ ['\x7d'], rest)
      else
        let run2 := rest.takeWhile nonBrace
        match rest.dropWhile nonBrace with
        | [] => none
        | c2 :: rest3 =>
          if c2 = '\x7d' then
            (braceTailF fuel rest3).map
              (fun p => (run ++ '\x7b' :: run2 ++ '\x7d' :: p.1, p.2))
          else none

def braceMatchAt : List Char → Option (List Char × List Char)
  | [] => none
  | c :: rest =>
    if c = '\x7b' then
      (braceTailF rest.length rest).map (fun p => ('\x7b' :: p.1, p.2))
    else none

/-- `re.findall` scanning for the stage-3 pattern: left to right,
non-overlapping, resuming after each full match — an object enclosed in an
earlier-starting match is never seen on its own. -/
def braceScan : Nat → List Char → List (List Char)
  | 0, _ => []
  | fuel + 1, cs =>
    match cs with
    | [] => []
    | _ :: rest =>
      match braceMatchAt cs with
      | some (cap, restAfter) => cap :: braceScan fuel restAfter
      | none => braceScan fuel rest

/-- The stage-3 candidates of `parse_recommendations`. -/
def braceCandidates (cs : List Char) : List (List Char) :=
  braceScan cs.length cs

/-- The shared loop body of stages 2 and 3: try each candidate in order;
a candidate that fails `json.loads` is skipped, one that parses and holds a
`recommendations` key is returned, one that parses but makes the membership
test raise `TypeError` propagates the exception (`some (.error ())`); an
exhausted list falls through (`none`). -/
def tryCandidates : List (List Char) → Option (Except Unit Json)
  | [] => none
  | c :: rest =>
    match jsonLoads (String.mk c) with
    | none => tryCandidates rest
    | some data =>
      match inCheck data with
      | none => some (.error ())
      | some true => some (.ok data)
      | some false => tryCandidates rest

/-- Stages 2 and 3 of `PromptBuilder.parse_recommendations`. -/
def stage23 (text : String) : Except Unit (Option Json) :=
  match tryCandidates (fenceCandidates text.toList) with
  | some (.error _) => .error ()
  | some (.ok d) => .ok (some d)
  | none =>
    match tryCandidates (braceCandidates text.toList) with
    | some (.error _) => .error ()
    | some (.ok d) => .ok (some d)
    | none => .ok none

/-- `PromptBuilder.parse_recommendations` (lines 197-261): empty or
whitespace-only text reports absent; stage 1 parses the stripped text as
clean JSON and returns it when the membership test holds (a `TypeError`
from the test propagates, `JSONDecodeError` falls through); stages 2 and 3
then try the fenced-block captures and the balanced-brace scan candidates;
when everything fails the result is absent (`.ok none`). -/
def parse_recommendations (response_text : String) : Except Unit (Option Json) :=
  if response_text = "" ∨ pyStrip response_text = "" then .ok none
  else
    match jsonLoads (pyStrip response_text) with
    | some data =>
      match inCheck data with
      | none => .error ()
      | some true => .ok (some data)
      | some false => stage23 response_text
    | none => stage23 response_text

/-- C8 counterexample: the text `xx \x7b a \x7b"recommendations": []\x7d b \x7d`
is not clean JSON (stage 1 fails), contains no fenced block (stage 2 finds no
candidate), and contains — anywhere in the text, as the claim asks — the
well-formed balanced-brace JSON object substring `\x7b"recommendations": []\x7d`
whose top level has a `recommendations` key; yet `parse_recommendations`
reports absent, because the stage-3 scan's leftmost match swallows the inner
object inside the unparseable outer braces and never offers it on its own. -/
theorem claim_C8_counterexample :
    parse_recommendations "xx \x7b a \x7b\"recommendations\": []\x7d b \x7d" =
      .ok none ∧
    pyContains "\x7b\"recommendations\": []\x7d"
      "xx \x7b a \x7b\"recommendations\": []\x7d b \x7d" = true ∧
    jsonLoads "\x7b\"recommendations\": []\x7d" =
      some (Json.jobj [("recommendations", Json.jarr [])]) ∧
    inCheck (Json.jobj [("recommendations", Json.jarr [])]) = some true ∧
    jsonLoads (pyStrip "xx \x7b a \x7b\"recommendations\": []\x7d b \x7d") = none ∧
    fenceCandidates
      (String.toList "xx \x7b a \x7b\"recommendations\": []\x7d b \x7d") = [] :=
  ⟨rfl, rfl, rfl, rfl, rfl, rfl⟩

/-- C8 (amended): parse returns an object exactly by the scan discipline of
the code: for non-empty, non-whitespace text on which stage 1 fails, if the
fenced-block candidates all fail and the balanced-brace scan's candidate loop
succeeds with object `d`, parse returns `d`; conversely, absent is returned
only when the text is empty/whitespace-only, or stage 1 yields no accepted
object and both candidate loops fall through — an object nested more than two
brace levels deep, or enclosed inside an earlier-starting scan match, is never
a candidate and is missed. -/
theorem claim_C8_amended (text : String) (d : Json) :
    (text ≠ "" → pyStrip text ≠ "" →
      jsonLoads (pyStrip text) = none →
      tryCandidates (fenceCandidates text.toList) = none →
      tryCandidates (braceCandidates text.toList) = some (.ok d) →
      parse_recommendations text = .ok (some d)) ∧
    (parse_recommendations text = .ok none →
      (text = "" ∨ pyStrip text = "") ∨
      ((jsonLoads (pyStrip text) = none ∨
        ∃ d0, jsonLoads (pyStrip text) = some d0 ∧ inCheck d0 = some false) ∧
       tryCandidates (fenceCandidates text.toList) = none ∧
       tryCandidates (braceCandidates text.toList) = none)) := by
  constructor
  · intro h0 h0' h1 h2 h3
    rw [parse_recommendations, if_neg (by simp [h0, h0']), h1, stage23, h2, h3]
  · intro hp
    by_cases hz : text = "" ∨ pyStrip text = ""
    · exact Or.inl hz
    · right
      rw [parse_recommendations, if_neg hz] at hp
      rcases h1 : jsonLoads (pyStrip text) with _ | d0
      · rw [h1] at hp
        simp only [] at hp
        rw [stage23] at hp
        rcases h2 : tryCandidates (fenceCandidates text.toList) with _ | e
        · rw [h2] at hp
          rcases h3 : tryCandidates (braceCandidates text.toList) with _ | e'
          · exact ⟨Or.inl rfl, rfl, rfl⟩
          · rw [h3] at hp; rcases e' with _ | d' <;> simp at hp
        · rw [h2] at hp; rcases e with _ | d' <;> simp at hp
      · rw [h1] at hp
        simp only [] at hp
        rcases hc : inCheck d0 with _ | b
        · rw [hc] at hp; simp only [] at hp; simp at hp
        · rw [hc] at hp
          rcases b with _ | _
          · simp only [] at hp
            rw [stage23] at hp
            rcases h2 : tryCandidates (fenceCandidates text.toList) with _ | e
            · rw [h2] at hp
              rcases h3 : tryCandidates (braceCandidates text.toList) with _ | e'
              · exact ⟨Or.inr ⟨d0, rfl, hc⟩, rfl, rfl⟩
              · rw [h3] at hp; rcases e' with _ | d' <;> simp at hp
            · rw [h2] at hp; rcases e with _ | d' <;> simp at hp
          · simp only [] at hp
            simp at hp

/-- C8 amended witness: a concrete hit through stage 3. -/
theorem claim_C8_amended_witness :
    parse_recommendations "oops \x7b\"recommendations\": []\x7d" =
      .ok (some (Json.jobj [("recommendations", Json.jarr [])])) :=
  (claim_C8_amended "oops \x7b\"recommendations\": []\x7d"
      (Json.jobj [("recommendations", Json.jarr [])])).1
    (by decide) (by decide) rfl rfl rfl
